import Mathlib

/-!
Verification of the query-rewriting and parameter-binding pipeline of the
`@live2ride/db` MSSQL convenience layer.

Text is modeled as `List Char` (JavaScript strings, sequences of unicode
scalars).  JavaScript numbers (IEEE doubles) are modeled as exact rationals;
this is exact on every value the claims touch (NaN and the exponent-notation
rendering of doubles outside the plain-decimal range are outside the model).
Each definition is a direct translation of the named source function.
-/

set_option maxRecDepth 4000

namespace DbSpec

abbrev Str := List Char

/-! ## Basic text operations (JavaScript string methods) -/

/-- ASCII lower-casing of one character, as `String.prototype.toLowerCase`
acts on the ASCII range (the only characters the library's keywords use). -/
def lowerChar (c : Char) : Char :=
  if 'A' ≤ c ∧ c ≤ 'Z' then Char.ofNat (c.toNat + 32) else c

/-- `String.prototype.toLowerCase`, ASCII range. -/
def toLower (s : Str) : Str := s.map lowerChar

/-- Does `hay` start with `pat`?  (`String.prototype.startsWith`) -/
def strStarts : Str → Str → Bool
  | _, [] => true
  | [], _ :: _ => false
  | h :: hs, p :: ps => h = p && strStarts hs ps

/-- Does `hay` contain `pat` as a contiguous substring?
(`String.prototype.includes`) -/
def strContains : Str → Str → Bool
  | [], pat => pat.isEmpty
  | c :: t, pat => strStarts (c :: t) pat || strContains t pat

/-- `String.prototype.replace` with a plain-string pattern: replace the
first occurrence of `pat` (if any) by `rep`. -/
def replaceFirst : Str → Str → Str → Str
  | [], pat, rep => if strStarts [] pat then rep else []
  | c :: t, pat, rep =>
    if strStarts (c :: t) pat then rep ++ (c :: t).drop pat.length
    else c :: replaceFirst t pat rep

/-- `String.prototype.split` with a single-character separator. -/
def splitOnChar (sep : Char) : Str → List Str
  | [] => [[]]
  | c :: t =>
    match splitOnChar sep t with
    | [] => [[c]]
    | h :: r => if c = sep then [] :: h :: r else (c :: h) :: r

/-- `Array.prototype.join`. -/
def joinSep (sep : Str) : List Str → Str
  | [] => []
  | [x] => x
  | x :: y :: r => x ++ sep ++ joinSep sep (y :: r)

/-! ## Decimal rendering of numbers (`Number.prototype.toString`) -/

/-- Base-10 digits of `n`, least significant first; `fuel ≥ n` suffices. -/
def natDigitsRev : Nat → Nat → List Nat
  | 0, _ => []
  | f + 1, n => if n = 0 then [] else n % 10 :: natDigitsRev f (n / 10)

def digitChar (d : Nat) : Char := Char.ofNat (48 + d)

/-- Decimal rendering of a natural number. -/
def natToDec (n : Nat) : Str :=
  if n = 0 then "0".data else ((natDigitsRev n n).reverse).map digitChar

/-- Decimal rendering of an integer. -/
def intToDec (i : Int) : Str :=
  if i < 0 then '-' :: natToDec i.natAbs else natToDec i.natAbs

/-- Fractional-part digits of `x ∈ [0,1)`, stopping when the remainder hits
zero.  The fuel (1100 at the call site) covers every finite decimal
expansion an IEEE double can denote. -/
def fracDigitsAux : Nat → ℚ → List Nat
  | 0, _ => []
  | f + 1, x =>
    if x = 0 then []
    else (x * 10).floor.toNat :: fracDigitsAux f (x * 10 - (x * 10).floor)

/-- `Number.prototype.toString` on the plain-decimal range: integral values
render without a decimal point, non-integral values with one.  (Exponent
notation for magnitudes outside [1e-6, 1e21) is not modeled; no claim
touches that range non-integrally.) -/
def numToString (q : ℚ) : Str :=
  if q.den = 1 then intToDec q.num
  else
    let a := |q|
    let digits := (fracDigitsAux 1100 (a - a.floor)).map digitChar
    (if q < 0 then ['-'] else []) ++ natToDec a.floor.toNat ++ '.' :: digits

/-! ## The JavaScript value model -/

/-- A JavaScript runtime value, as far as the library's parameter pipeline
inspects one.  `vdate` carries the date's ISO-8601 rendering (what
`Date.prototype.toJSON` produces); `vset` is an ES `Set` holding the listed
elements in insertion order. -/
inductive JVal where
  | vnull
  | vundef
  | vbool (b : Bool)
  | vnum (q : ℚ)
  | vstr (s : Str)
  | varr (elems : List JVal)
  | vobj (fields : List (Str × JVal))
  | vdate (iso : Str)
  | vset (elems : List JVal)

open JVal

/-- JavaScript truthiness (`Boolean(v)`).  NaN is outside the model. -/
def jsTruthy : JVal → Bool
  | vnull => false
  | vundef => false
  | vbool b => b
  | vnum q => decide (q ≠ 0)
  | vstr s => decide (s ≠ [])
  | _ => true

/-- `value === null || value === undefined`. -/
def isNullish : JVal → Bool
  | vnull => true
  | vundef => true
  | _ => false

/-- `typeof v === "object"` (note: `typeof null` is `"object"` in JS). -/
def typeofObject : JVal → Bool
  | vnull => true
  | varr _ => true
  | vobj _ => true
  | vdate _ => true
  | vset _ => true
  | _ => false

/-- `_value.toString() === "0"`: true exactly for values whose JS string
rendering is the single character `0` — the number 0, the string `"0"`,
and one-element arrays whose element renders as `"0"` (array `toString`
joins element renderings with commas). -/
def jsToStringIsZero : JVal → Bool
  | vnum q => decide (q = 0)
  | vstr s => s = "0".data
  | varr [x] => jsToStringIsZero x
  | _ => false

/-! ## JSON.stringify -/

/-- Lower-case hexadecimal digit. -/
def hexDigit (n : Nat) : Char :=
  if n < 10 then Char.ofNat (48 + n) else Char.ofNat (87 + n)

/-- `JSON.stringify` escaping of one string character: quote, backslash,
the named control escapes, and `\u00XX` for the remaining control
characters. -/
def escChar (c : Char) : Str :=
  if c = '"' then ['\\', '"']
  else if c = '\\' then ['\\', '\\']
  else if c = Char.ofNat 8 then ['\\', 'b']
  else if c = Char.ofNat 9 then ['\\', 't']
  else if c = Char.ofNat 10 then ['\\', 'n']
  else if c = Char.ofNat 12 then ['\\', 'f']
  else if c = Char.ofNat 13 then ['\\', 'r']
  else if c.toNat < 32 then
    ['\\', 'u', '0', '0', hexDigit (c.toNat / 16), hexDigit (c.toNat % 16)]
  else [c]

/-- A JSON string literal: quoted, with characters escaped. -/
def quoteStr (s : Str) : Str := '"' :: (s.map escChar).flatten ++ ['"']

/-- `JSON.stringify`.  `vundef` only arises as an array element (rendered
`null`); object fields with undefined values are omitted, mirroring JS.
A `Date` stringifies via `toJSON` to its quoted ISO rendering; a `Set` has
no own enumerable properties and stringifies to an empty object. -/
def jsonStringify : JVal → Str
  | vnull => "null".data
  | vundef => "null".data
  | vbool true => "true".data
  | vbool false => "false".data
  | vnum q => numToString q
  | vstr s => quoteStr s
  | vdate iso => quoteStr iso
  | vset _ => ['{', '}']
  | varr xs => '[' :: joinSep [','] (goArr xs) ++ [']']
  | vobj fs => '{' :: joinSep [','] (goObj fs) ++ ['}']
where
  goArr : List JVal → List Str
    | [] => []
    | x :: r => jsonStringify x :: goArr r
  goObj : List (Str × JVal) → List Str
    | [] => []
    | (_, vundef) :: r => goObj r
    | (k, v) :: r => (quoteStr k ++ ':' :: jsonStringify v) :: goObj r

/-! ## The parameter binder: `#reqInput` (src/unnamed/part_001 lines 232-305,
identically src/unnamed/part_008 lines 252-325) -/

/-- Engine parameter types produced by the binder (the `type` strings of
the source: `int`, `float`, `BigInt`, `DateTime`, `NVarChar(n)`,
`NVarChar(max)`). -/
inductive SqlTy where
  | int
  | float
  | bigInt
  | dateTime
  | nvarchar (n : Nat)
  | nvarcharMax
deriving DecidableEq, Repr

/-- Maximum value of the engine's 32-bit signed INT type, as documented by
the repository's constants module (`SQL_INT_MAX`, src/utils/parse-error.ts
second document, line 38): values above it need BIGINT. -/
def SQL_INT_MAX : Int := 2147483647

/-- The literal numeric threshold the binder actually compares against
(src/unnamed/part_001 line 256): note the transposed digit relative to
`SQL_INT_MAX`. -/
def REQINPUT_THRESHOLD : Int := 2047483647

/-- `isFloat(n)`: the source tests whether `n.toString()` contains a `.`,
which on the plain-decimal range holds exactly when the value is
non-integral. -/
def isFloatQ (q : ℚ) : Bool := decide (q.den ≠ 1)

/-- `#reqInput` — the type-inference and binding step for one parameter.
Returns the `{type, value}` pair the source returns (the `req.input` call
is the same data, passed to the driver).  The trailing `catch` rebind is
unreachable for modeled values (`JSON.stringify` cannot throw on them).
Branch order follows the source: null/undefined, `toString() === "0"`,
number, object-or-Set, string, boolean, Date (unreachable: any `Date` has
`typeof` `"object"` and is captured by the structured branch), fallback. -/
def reqInput (key : Str) (value : JVal) : SqlTy × JVal :=
  -- let _value = value; if (_key === "_page" && !_value) _value = 0;
  let v0 := if key = "_page".data && !(jsTruthy value) then vnum 0 else value
  -- if (value === null || value === undefined)
  if isNullish value then (SqlTy.nvarchar 11, vnull)
  -- else if (_value.toString() === "0")
  else if jsToStringIsZero v0 then (SqlTy.int, v0)
  else
    match v0 with
    -- else if (isNumber(_value))
    | vnum q =>
      if isFloatQ q then (SqlTy.float, vnum q)
      else if decide ((q : ℚ) > (REQINPUT_THRESHOLD : ℚ)) then (SqlTy.bigInt, vnum q)
      else (SqlTy.int, vnum q)
    -- else if (typeof _value === "object" || _value instanceof Set)
    | varr xs => (SqlTy.nvarcharMax, vstr (jsonStringify (varr xs)))
    | vobj fs => (SqlTy.nvarcharMax, vstr (jsonStringify (vobj fs)))
    | vdate iso => (SqlTy.nvarcharMax, vstr (jsonStringify (vdate iso)))
    | vset xs => (SqlTy.nvarcharMax, vstr (jsonStringify (varr xs)))
    -- else if (typeof _value === "string")
    | vstr s => (SqlTy.nvarchar ((quoteStr s).length + 20), vstr s)
    -- else if (typeof _value === "boolean")
    | vbool b =>
      (SqlTy.nvarchar 10, vstr (if b then "true".data else "false".data))
    -- `_value instanceof Date` and the fallback are unreachable here:
    -- every remaining constructor was consumed above.
    | vnull => (SqlTy.nvarchar 11, vnull)
    | vundef => (SqlTy.nvarchar 11, vnull)

/-! ## Claims C1 and C4: the binder's numeric threshold and Date handling -/

/-- C1: the claim says integral values within the 32-bit signed range bind
as the integer type.  The code compares against 2047483647 — a digit
transposition of the repository's documented `SQL_INT_MAX = 2147483647` —
so the integral value 2100000000, inside the documented range, binds as
BigInt.  This theorem evaluates the binder at that failing input; together
with `REQINPUT_THRESHOLD < SQL_INT_MAX` it exhibits the divergence between
the code and the claim (and the repository's own constants module). -/
theorem C1_int_threshold_transposed_digit_bug :
    (reqInput "_n".data (JVal.vnum 2100000000)).1 = SqlTy.bigInt ∧
    (2100000000 : Int) ≤ SQL_INT_MAX ∧
    REQINPUT_THRESHOLD < SQL_INT_MAX ∧
    (reqInput "_n".data (JVal.vnum 2100000000)).1 ≠ SqlTy.int := by
  refine ⟨by decide, by decide, by decide, by decide⟩

/-- C4: the claim says a Date binds as the temporal type with precedence
over structured-value handling.  In the source the `typeof _value ===
"object"` branch precedes the `instanceof Date` branch, and a JS `Date`
satisfies the former, so every Date is JSON-serialized (its quoted ISO
rendering) and bound as NVarChar(max); the DateTime branch is unreachable
for every value.  This theorem evaluates the binder at a concrete Date and
proves no input at all yields the DateTime type. -/
theorem C4_date_branch_unreachable_bug :
    (reqInput "_d".data (JVal.vdate "2024-01-02T03:04:05.000Z".data)).1 =
      SqlTy.nvarcharMax ∧
    (reqInput "_d".data (JVal.vdate "2024-01-02T03:04:05.000Z".data)).2 =
      JVal.vstr (quoteStr "2024-01-02T03:04:05.000Z".data) ∧
    ∀ k v, (reqInput k v).1 ≠ SqlTy.dateTime := by
  refine ⟨rfl, rfl, ?_⟩
  intro k v
  by_cases hk : (k = "_page".data && !(jsTruthy v)) = true <;>
    cases v <;> simp only [reqInput, hk, Bool.false_eq_true, if_true, if_false] <;>
    split_ifs <;> simp

/-! ## Claim C7: the table-name validator
(src/utils/validate-table-name.ts, `validateTableName`) -/

/-- The single-quote character. -/
def apos : Char := Char.ofNat 39

/-- The double-quote character. -/
def dquote : Char := Char.ofNat 34

/-- One character of the accepting pattern `^[a-zA-Z0-9_#.\[\]]+$`. -/
def validChar (c : Char) : Bool :=
  ('a' ≤ c && c ≤ 'z') || ('A' ≤ c && c ≤ 'Z') || ('0' ≤ c && c ≤ '9') ||
  c = '_' || c = '#' || c = '.' || c = '[' || c = ']'

/-- Case-insensitive substring test (`/pat/i.test(p)` for an all-lowercase
ASCII `pat`). -/
def ciContains (p pat : Str) : Bool := strContains (toLower p) pat

/-- The `dangerousPatterns` list applied to one dot-separated component, in
source order: `;`, `--`, `/*`, `*/`, the two quote characters, and the
case-insensitive `xp_`, `sp_`, `exec`, `execute`, `drop`, `truncate`,
`alter`. -/
def dangerousPart (p : Str) : Bool :=
  strContains p [';'] || strContains p ['-', '-'] ||
  strContains p ['/', '*'] || strContains p ['*', '/'] ||
  strContains p [apos] || strContains p [dquote] ||
  ciContains p "xp_".data || ciContains p "sp_".data ||
  ciContains p "exec".data || ciContains p "execute".data ||
  ciContains p "drop".data || ciContains p "truncate".data ||
  ciContains p "alter".data

/-- `validateTableName`: empty or non-string names are rejected, then the
whole name must match the accepting character class, then at most three
dot-separated parts, then each non-empty part must avoid the dangerous
patterns (the source loop throws at the first offender; empty parts are
skipped).  The source interpolates the name into its error messages; the
messages here are the fixed prefixes. -/
def validateTableName (tableName : Str) : Except Str Unit :=
  if tableName = [] then .error "Table name must be a non-empty string".data
  else if !(tableName.all validChar) then
    .error "Invalid table name: bad characters".data
  else
    let parts := splitOnChar '.' tableName
    if parts.length > 3 then
      .error "Invalid table name: maximum format is database.schema.table".data
    else
      match parts.find? (fun p => !p.isEmpty && dangerousPart p) with
      | some _ => .error "Invalid table name: dangerous pattern".data
      | none => .ok ()

/-- Did the validator throw? -/
def isErr {ε α : Type} : Except ε α → Bool
  | .error _ => true
  | .ok _ => false

/-- The claim's list of forbidden component contents: `;`, `--`, either
quote, or the substrings `drop`, `truncate`, `alter`, `exec`
(case-insensitive). -/
def claimBadComponent (p : Str) : Bool :=
  strContains p [';'] || strContains p ['-', '-'] ||
  strContains p [apos] || strContains p [dquote] ||
  ciContains p "drop".data || ciContains p "truncate".data ||
  ciContains p "alter".data || ciContains p "exec".data

theorem strStarts_nil_right (h : Str) : strStarts h [] = true := by
  cases h <;> rfl

/-- A successful `strStarts` is a prefix decomposition. -/
theorem strStarts_exists {p : Str} : ∀ {h : Str},
    strStarts h p = true → ∃ r, h = p ++ r := by
  induction p with
  | nil => exact fun {h} _ => ⟨h, rfl⟩
  | cons a q ih =>
    intro h hs
    cases h with
    | nil => simp [strStarts] at hs
    | cons b t =>
      simp only [strStarts, Bool.and_eq_true, decide_eq_true_eq] at hs
      obtain ⟨r, hr⟩ := ih hs.2
      exact ⟨r, by simp [hs.1, hr]⟩

/-- A successful `strContains` is an infix decomposition. -/
theorem strContains_exists {p : Str} : ∀ {h : Str},
    strContains h p = true → ∃ l r, h = l ++ p ++ r := by
  intro h
  induction h with
  | nil =>
    intro hc
    cases p with
    | nil => exact ⟨[], [], rfl⟩
    | cons a q => simp [strContains, List.isEmpty] at hc
  | cons a t ih =>
    intro hc
    simp only [strContains, Bool.or_eq_true] at hc
    rcases hc with hc | hc
    · obtain ⟨r, hr⟩ := strStarts_exists hc
      exact ⟨[], r, by simp [hr]⟩
    · obtain ⟨l, r, hr⟩ := ih hc
      exact ⟨a :: l, r, by simp [hr]⟩

/-- Every character of a contained pattern occurs in the containing text. -/
theorem strContains_mem {h p : Str} (hc : strContains h p = true)
    {c : Char} (hcp : c ∈ p) : c ∈ h := by
  obtain ⟨l, r, rfl⟩ := strContains_exists hc
  simp [hcp]

theorem splitOnChar_ne_nil (sep : Char) (n : Str) :
    splitOnChar sep n ≠ [] := by
  cases n with
  | nil => simp [splitOnChar]
  | cons c t =>
    simp only [splitOnChar]
    rcases h : splitOnChar sep t with _ | ⟨hd, r⟩
    · simp
    · by_cases hc : c = sep <;> simp [hc]

theorem splitOnChar_mem_subset {sep : Char} : ∀ {n p : Str},
    p ∈ splitOnChar sep n → ∀ {c : Char}, c ∈ p → c ∈ n := by
  intro n
  induction n with
  | nil =>
    intro p hp c hc
    simp only [splitOnChar, List.mem_singleton] at hp
    subst hp
    exact absurd hc (List.not_mem_nil c)
  | cons a t ih =>
    intro p hp c hc
    rcases h : splitOnChar sep t with _ | ⟨hd, r⟩
    · exact absurd h (splitOnChar_ne_nil sep t)
    · simp only [splitOnChar, h] at hp
      by_cases ha : a = sep
      · simp only [ha, if_true] at hp
        rcases List.mem_cons.mp hp with rfl | hp2
        · exact absurd hc (List.not_mem_nil c)
        · exact List.mem_cons_of_mem _ (ih (h ▸ hp2) hc)
      · simp only [ha, if_false] at hp
        rcases List.mem_cons.mp hp with rfl | hp2
        · rcases List.mem_cons.mp hc with rfl | hc2
          · exact List.mem_cons_self c t
          · exact List.mem_cons_of_mem _
              (ih (h ▸ List.mem_cons_self hd r) hc2)
        · exact List.mem_cons_of_mem _
            (ih (h ▸ List.mem_cons_of_mem hd hp2) hc)

theorem find?_of_mem {α : Type} {l : List α} {x : α} {f : α → Bool}
    (hx : x ∈ l) (hfx : f x = true) : ∃ y, l.find? f = some y := by
  induction l with
  | nil => exact absurd hx (List.not_mem_nil x)
  | cons a t ih =>
    by_cases ha : f a = true
    · exact ⟨a, by rw [List.find?_cons_of_pos _ ha]⟩
    · rcases List.mem_cons.mp hx with rfl | hx2
      · exact absurd hfx ha
      · obtain ⟨y, hy⟩ := ih hx2
        exact ⟨y, by rw [List.find?_cons_of_neg _ ha, hy]⟩

/-- A component containing a claim-listed bad substring is non-empty and,
when its characters pass the accepting class, is caught by the dangerous
patterns; quotes, `;` and `-` fail the accepting class outright. -/
theorem claimBad_cases {p : Str} (h : claimBadComponent p = true) :
    (∃ c ∈ p, validChar c = false) ∨
    (p ≠ [] ∧ dangerousPart p = true) := by
  have keyword : ∀ pat : Str, pat ≠ [] → ciContains p pat = true → p ≠ [] := by
    intro pat hpat hC h0
    subst h0
    obtain ⟨l, r, hr⟩ := @strContains_exists pat (toLower []) hC
    simp only [toLower, List.map_nil] at hr
    obtain ⟨-, h2, -⟩ := by
      simpa [List.append_eq_nil] using hr.symm
    exact hpat h2
  simp only [claimBadComponent, Bool.or_eq_true] at h
  rcases h with (((((((h | h) | h) | h) | h) | h) | h) | h)
  · exact .inl ⟨';', strContains_mem h (by simp), by decide⟩
  · exact .inl ⟨'-', strContains_mem h (by simp), by decide⟩
  · exact .inl ⟨apos, strContains_mem h (by simp), by decide⟩
  · exact .inl ⟨dquote, strContains_mem h (by simp), by decide⟩
  · exact .inr ⟨keyword _ (by decide) h,
      by simp only [dangerousPart, Bool.or_eq_true]; tauto⟩
  · exact .inr ⟨keyword _ (by decide) h,
      by simp only [dangerousPart, Bool.or_eq_true]; tauto⟩
  · exact .inr ⟨keyword _ (by decide) h,
      by simp only [dangerousPart, Bool.or_eq_true]; tauto⟩
  · exact .inr ⟨keyword _ (by decide) h,
      by simp only [dangerousPart, Bool.or_eq_true]; tauto⟩

/-- C7: `validateTableName` accepts `schema.table`, `db.schema.table`,
`db..table` and `#tempTable`, and throws for every name in which some
dot-separated component contains `;`, `--`, a quote, or one of the
substrings `drop`, `truncate`, `alter`, `exec` case-insensitively (either
through the accepting character class or through the dangerous-pattern
scan). -/
theorem C7_validateTableName_accepts_and_rejects :
    validateTableName "schema.table".data = .ok () ∧
    validateTableName "db.schema.table".data = .ok () ∧
    validateTableName "db..table".data = .ok () ∧
    validateTableName "#tempTable".data = .ok () ∧
    ∀ n, (splitOnChar '.' n).any claimBadComponent = true →
      isErr (validateTableName n) = true := by
  refine ⟨rfl, rfl, rfl, rfl, ?_⟩
  intro n hn
  rcases List.any_eq_true.mp hn with ⟨p, hp, hbad⟩
  rcases claimBad_cases hbad with ⟨c, hcp, hcv⟩ | ⟨hne, hdanger⟩
  · -- a character of the component fails the accepting class, so the whole
    -- name fails the `validPattern` test
    have hcn : c ∈ n := splitOnChar_mem_subset hp hcp
    have hall : n.all validChar = false := by
      cases hv : n.all validChar
      · rfl
      · exact absurd (List.all_eq_true.mp hv c hcn) (by simp [hcv])
    have hne : n ≠ [] := by
      intro h; subst h; exact absurd hcn (List.not_mem_nil c)
    simp [validateTableName, hne, hall, isErr]
  · -- the component is caught by the dangerous-pattern loop (when an
    -- earlier check has not already thrown)
    by_cases h0 : n = []
    · subst h0
      simp only [splitOnChar, List.mem_singleton] at hp
      exact absurd hp hne
    · by_cases h1 : n.all validChar = true
      · by_cases h2 : (splitOnChar '.' n).length > 3
        · simp [validateTableName, h0, h1, h2, isErr]
        · obtain ⟨y, hy⟩ := @find?_of_mem _ _ _
            (fun p => !p.isEmpty && dangerousPart p) hp
            (by simp only [Bool.and_eq_true, Bool.not_eq_true']
                exact ⟨by simpa [List.isEmpty_iff] using hne, hdanger⟩)
          simp [validateTableName, h0, h1, h2, hy, isErr]
      · have h1f : n.all validChar = false := by
          cases hv : n.all validChar
          · rfl
          · exact absurd hv h1
        simp [validateTableName, h0, h1f, isErr]

/-- C7 witness: a concrete rejected name with a `drop` component, fed to
the universal part of the theorem. -/
theorem C7_witness :
    (splitOnChar '.' "dbo.dropTable".data).any claimBadComponent = true ∧
    isErr (validateTableName "dbo.dropTable".data) = true :=
  ⟨by decide,
    C7_validateTableName_accepts_and_rejects.2.2.2.2 "dbo.dropTable".data
      (by decide)⟩

/-! ## Claim C6: the structured-array shape generator
(src/utils/extract-openjson.ts, `generateOpenJsonQueryWithClause`) -/

/-- `getSqlType` of the generator: BIGINT/FLOAT by `Number.isInteger`, BIT
for booleans, NVARCHAR(255)/NVARCHAR(MAX) by the 255-character threshold,
NVARCHAR(MAX) for everything else. -/
def getSqlType (v : JVal) : Str :=
  match v with
  | vnum q => if q.den = 1 then "BIGINT".data else "FLOAT".data
  | vbool _ => "BIT".data
  | vstr s => if s.length > 255 then "NVARCHAR(MAX)".data else "NVARCHAR(255)".data
  | _ => "NVARCHAR(MAX)".data

/-- `Object.entries`: the own enumerable entries of a value — the fields of
an object (undefined-valued ones included), index/element pairs of an
array, nothing for dates and sets. -/
def enumFrom : Nat → List JVal → List (Str × JVal)
  | _, [] => []
  | i, x :: r => (natToDec i, x) :: enumFrom (i + 1) r

def jsEntries : JVal → List (Str × JVal)
  | vobj fs => fs
  | varr xs => enumFrom 0 xs
  | _ => []

/-- One `key type '$.key'` fragment of the generated WITH clause. -/
def withFragment (kv : Str × JVal) : Str :=
  kv.1 ++ ' ' :: getSqlType kv.2 ++ ' ' :: apos :: '$' :: '.' :: kv.1 ++ [apos]

/-- The surrounding template of the generated clause. -/
def openJsonWrap (body : Str) : Str :=
  "\n    WITH(\n".data ++ body ++ "\n)\n  ".data

/-- The body built from the first array element: the object case joins one
fragment per entry; the primitive case emits the single `value ty '$'`
fragment (note the trailing space of the source template). -/
def openJsonBody (first : JVal) : Str :=
  if typeofObject first && !(isNullish first) then
    joinSep ",\n ".data ((jsEntries first).map withFragment)
  else
    let sqlType : Str :=
      match first with
      | vnum q => if q.den = 1 then "BIGINT".data else "FLOAT".data
      | vbool _ => "BIT".data
      | _ => "NVARCHAR(MAX)".data
    "value ".data ++ sqlType ++ ' ' :: apos :: '$' :: apos :: [' ']

/-- `generateOpenJsonQueryWithClause(data, fieldName)`: throws on an empty
array, otherwise synthesizes the WITH clause from `data[0]`.  The
`fieldName` argument is carried only for documentation in the source and
does not influence the output. -/
def generateOpenJsonQueryWithClause (data : List JVal) (_fieldName : Str) :
    Except Str Str :=
  match data with
  | [] => .error "JSON data is empty.".data
  | first :: _ => .ok (openJsonWrap (openJsonBody first))

/-- C6: the generator throws on an empty array; on a non-empty array whose
first element is an object it emits exactly one `key type '$.key'`
fragment per field of that element, in field order, where the type is
BIGINT for integral numbers, FLOAT for non-integral numbers, BIT for
booleans, NVARCHAR(255) for strings of length at most 255 and
NVARCHAR(MAX) for longer strings. -/
theorem C6_generateOpenJson_shape :
    (∀ fieldName, generateOpenJsonQueryWithClause [] fieldName =
      .error "JSON data is empty.".data) ∧
    (∀ fieldName fs rest,
      generateOpenJsonQueryWithClause (vobj fs :: rest) fieldName =
        .ok (openJsonWrap (joinSep ",\n ".data (fs.map withFragment)))) ∧
    (∀ q : ℚ, q.den = 1 → getSqlType (vnum q) = "BIGINT".data) ∧
    (∀ q : ℚ, q.den ≠ 1 → getSqlType (vnum q) = "FLOAT".data) ∧
    (∀ b, getSqlType (vbool b) = "BIT".data) ∧
    (∀ s : Str, s.length ≤ 255 → getSqlType (vstr s) = "NVARCHAR(255)".data) ∧
    (∀ s : Str, 255 < s.length → getSqlType (vstr s) = "NVARCHAR(MAX)".data) := by
  refine ⟨fun _ => rfl, fun fieldName fs rest => ?_, fun q hq => ?_,
    fun q hq => ?_, fun b => rfl, fun s hs => ?_, fun s hs => ?_⟩
  · simp [generateOpenJsonQueryWithClause, openJsonBody, typeofObject,
      isNullish, jsEntries]
  · simp [getSqlType, hq]
  · simp [getSqlType, hq]
  · simp [getSqlType, Nat.not_lt.mpr hs]
  · simp [getSqlType, hs]

/-- C6 witness: the generator evaluated on `[{id: 1, name: "ab"}]`, with
the hypothesized type equations instantiated at concrete values. -/
theorem C6_witness :
    generateOpenJsonQueryWithClause
        [vobj [("id".data, vnum 1), ("name".data, vstr "ab".data)]] "x".data =
      .ok (openJsonWrap (joinSep ",\n ".data
        [withFragment ("id".data, vnum 1),
         withFragment ("name".data, vstr "ab".data)])) ∧
    getSqlType (vnum 1) = "BIGINT".data ∧
    getSqlType (vnum (1.5 : ℚ)) = "FLOAT".data ∧
    getSqlType (vstr "ab".data) = "NVARCHAR(255)".data :=
  ⟨C6_generateOpenJson_shape.2.1 "x".data
      [("id".data, vnum 1), ("name".data, vstr "ab".data)] [],
   C6_generateOpenJson_shape.2.2.1 1 (by decide),
   C6_generateOpenJson_shape.2.2.2.1 (1.5 : ℚ) (by norm_num),
   C6_generateOpenJson_shape.2.2.2.2.2.1 "ab".data (by decide)⟩

/-! ## Claim C5: pagination injection is idempotent
(src/index.ts `#get.query`, lines 433-441) -/

/-- The parameter bag: the caller's key/value mapping (keys without the
`@_` prefix). -/
abbrev Bag := List (Str × JVal)

/-- First bag entry under a key (`lodash find(pars, {key})` and JS property
access on an object, whose keys are unique). -/
def bagFind (params : Bag) (k : Str) : Option JVal :=
  (params.find? (fun p => p.1 = k)).map Prod.snd

/-- `typeof params?.limit === "number" && !isNaN(Number(params?.limit))` —
a modeled number is never NaN. -/
def limitIsNumber (params : Bag) : Bool :=
  match bagFind params "limit".data with
  | some (vnum _) => true
  | _ => false

/-- The injected row-limiting clause. -/
def pagingClause : Str :=
  "\nOFFSET @_page * @_limit ROWS FETCH NEXT @_limit ROWS ONLY;".data

/-- The pagination-injection step of `#get.query`: append the OFFSET/FETCH
clause when the bag's `limit` is a number and the statement does not
already contain the paging keyword (case-insensitive substring test). -/
def getQueryPaging (query : Str) (params : Bag) : Str :=
  if limitIsNumber params &&
      !(strContains (toLower query) "fetch next".data) then
    query ++ pagingClause
  else query

theorem strContains_append_right {b pat : Str}
    (h : strContains b pat = true) (a : Str) :
    strContains (a ++ b) pat = true := by
  induction a with
  | nil => simpa using h
  | cons x t ih =>
    simp only [List.cons_append, strContains, Bool.or_eq_true]
    exact .inr ih

/-- C5: a statement already containing the paging keyword
(case-insensitively) is never extended with another paging clause, for any
bag with a numeric limit or otherwise; consequently the paging rewrite is
idempotent — a second application never appends a duplicate OFFSET/FETCH
NEXT clause. -/
theorem C5_paging_rewrite_idempotent :
    (∀ q params, strContains (toLower q) "fetch next".data = true →
      getQueryPaging q params = q) ∧
    (∀ q params,
      getQueryPaging (getQueryPaging q params) params = getQueryPaging q params) := by
  constructor
  · intro q params h
    simp [getQueryPaging, h]
  · intro q params
    by_cases hc : (limitIsNumber params &&
        !(strContains (toLower q) "fetch next".data)) = true
    · have h1 : getQueryPaging q params = q ++ pagingClause := by
        unfold getQueryPaging; rw [if_pos hc]
      have h2 : strContains (toLower (q ++ pagingClause))
          "fetch next".data = true := by
        rw [toLower, List.map_append]
        exact strContains_append_right (by decide) _
      rw [h1]
      simp [getQueryPaging, h2]
    · have h1 : getQueryPaging q params = q := by
        unfold getQueryPaging; rw [if_neg hc]
      rw [h1]
      exact h1

/-- C5 witness: a statement that already carries a FETCH NEXT clause is
returned unchanged even with a numeric limit in the bag. -/
theorem C5_witness :
    getQueryPaging
        "select a from t order by a OFFSET 0 ROWS FETCH NEXT 5 ROWS ONLY".data
        [("limit".data, vnum 5)] =
      "select a from t order by a OFFSET 0 ROWS FETCH NEXT 5 ROWS ONLY".data :=
  C5_paging_rewrite_idempotent.1
    "select a from t order by a OFFSET 0 ROWS FETCH NEXT 5 ROWS ONLY".data
    [("limit".data, vnum 5)] (by decide)

/-! ## Claim C3: membership expansion of `IN (@_name)`
(src/utils/extract-openjson.ts `extractOpenJson`;
src/index.ts `#get.query` lines 399-414, the `useOpenJson` path) -/

/-- A regex word character (`\w`). -/
def isWordChar (c : Char) : Bool :=
  ('a' ≤ c && c ≤ 'z') || ('A' ≤ c && c ≤ 'Z') ||
  ('0' ≤ c && c ≤ '9') || c = '_'

/-- A regex whitespace character (`\s`), ASCII range. -/
def isWsChar (c : Char) : Bool :=
  c = ' ' || c = Char.ofNat 9 || c = Char.ofNat 10 ||
  c = Char.ofNat 13 || c = Char.ofNat 12 || c = Char.ofNat 11

/-- Drop leading regex whitespace (`\s*`). -/
def dropWs : Str → Str
  | [] => []
  | c :: t => if isWsChar c then dropWs t else c :: t

/-- Longest word-character run and the remainder (`\w+` matching). -/
def spanWord : Str → Str × Str
  | [] => ([], [])
  | c :: t =>
    if isWordChar c then
      let (w, r) := spanWord t
      (c :: w, r)
    else ([], c :: t)

/-- One attempted match of `in\s*\(\s*@_(\w+)\s*\)` (case-insensitive)
at the current position; the caller has already checked the `\b` word
boundary.  Returns the captured name and the text after the match. -/
def matchInAt : Str → Option (Str × Str)
  | c1 :: c2 :: t =>
    if (c1 = 'i' || c1 = 'I') && (c2 = 'n' || c2 = 'N') then
      match dropWs t with
      | '(' :: t2 =>
        match dropWs t2 with
        | '@' :: '_' :: t3 =>
          match spanWord t3 with
          | ([], _) => none
          | (name, t4) =>
            match dropWs t4 with
            | ')' :: t5 => some (name, t5)
            | _ => none
        | _ => none
      | _ => none
    else none
  | _ => none

/-- The scan loop of `extractOpenJson`: successive non-overlapping matches
of the pattern, left to right, as `RegExp.prototype.exec` with the `g`
flag produces them.  `prevWord` tracks whether the previous character was
a word character (the `\b` boundary); after a match the scan resumes right
after the closing parenthesis, whose `\b` state is non-word.  The fuel is
decremented once per consumed character, so `length + 1` suffices.
(The source's `.replace("@_", "").trim()` on the capture is a no-op: a
`\w+` capture contains neither `@` nor spaces.) -/
def extractOpenJsonAux : Nat → Bool → Str → List Str
  | 0, _, _ => []
  | f + 1, prevWord, s =>
    match s with
    | [] => []
    | c :: t =>
      if prevWord then extractOpenJsonAux f (isWordChar c) t
      else
        match matchInAt (c :: t) with
        | some (name, rest) => name :: extractOpenJsonAux f false rest
        | none => extractOpenJsonAux f (isWordChar c) t

/-- `extractOpenJson`: the parameter names found under `IN (@_name)`. -/
def extractOpenJson (input : Str) : List Str :=
  extractOpenJsonAux (input.length + 1) false input

/-- The replacement text `select value from openjson(@_key)`. -/
def openJsonSubquery (key : Str) : Str :=
  "select value from openjson(@_".data ++ key ++ [')']

/-- Is the bag value under `k` an array (`Array.isArray`)? -/
def bagValueIsArray (params : Bag) (k : Str) : Bool :=
  match bagFind params k with
  | some (varr _) => true
  | _ => false

/-- One iteration of the `forEach` in `#get.query`: when the bag holds an
array under the extracted name, `query.replace` substitutes the FIRST
occurrence of `@_name` in the whole statement by the sub-query. -/
def membershipStep (params : Bag) (q : Str) (k : Str) : Str :=
  match bagFind params k with
  | some (varr _) => replaceFirst q ("@_".data ++ k) (openJsonSubquery k)
  | _ => q

/-- The membership-expansion stage of `#get.query` (the `useOpenJson`
path): fold the per-name step over the extracted names. -/
def membershipRewrite (q : Str) (params : Bag) : Str :=
  (extractOpenJson q).foldl (membershipStep params) q

theorem membershipStep_of_not_array {params : Bag} {k : Str}
    (h : bagValueIsArray params k = false) (q : Str) :
    membershipStep params q k = q := by
  unfold membershipStep
  unfold bagValueIsArray at h
  rcases hb : bagFind params k with _ | v
  · rfl
  · simp only [hb] at h
    cases v <;> simp_all

theorem foldl_membershipStep_id {params : Bag} :
    ∀ (ks : List Str) (q : Str),
      (∀ k ∈ ks, bagValueIsArray params k = false) →
      ks.foldl (membershipStep params) q = q := by
  intro ks
  induction ks with
  | nil => intro q _; rfl
  | cons a t ih =>
    intro q h
    simp only [List.foldl_cons]
    rw [membershipStep_of_not_array (h a (List.mem_cons_self a t))]
    exact ih q (fun k hk => h k (List.mem_cons_of_mem a hk))

/-- C3 counterexample: with `ids` array-valued and the statement
`select @_ids from t where id in (@_ids)`, the rewriter replaces the FIRST
textual occurrence of `@_ids` (the one in the select list), not the
parenthesized reference inside `IN (...)`: the result still contains the
untouched `in (@_ids)`, so the claim that the parenthesized reference is
replaced by the sub-query fails at this input. -/
theorem C3_counterexample_first_occurrence :
    extractOpenJson "select @_ids from t where id in (@_ids)".data =
      ["ids".data] ∧
    membershipRewrite "select @_ids from t where id in (@_ids)".data
        [("ids".data, varr [vnum 1])] =
      ("select select value from openjson(@_ids) " ++
        "from t where id in (@_ids)").data ∧
    strContains
      (membershipRewrite "select @_ids from t where id in (@_ids)".data
        [("ids".data, varr [vnum 1])]) "in (@_ids)".data = true ∧
    membershipRewrite "select @_ids from t where id in (@_ids)".data
        [("ids".data, varr [vnum 1])] ≠
      ("select @_ids from t where id in " ++
        "(select value from openjson(@_ids))").data := by
  exact ⟨rfl, rfl, rfl, by decide⟩

/-- C3 (amended): under the `IN (@_name)` pattern, a name whose bag value
is not an array leaves the statement text unchanged (for every statement
and bag); and for a statement with exactly one pattern match whose name is
array-valued, the rewriter performs a first-occurrence replacement of
`@_name` by the `select value from openjson(@_name)` sub-query — which is
the parenthesized reference itself whenever `@_name` occurs only there. -/
theorem C3_membership_amended :
    (∀ q params,
      (∀ k ∈ extractOpenJson q, bagValueIsArray params k = false) →
      membershipRewrite q params = q) ∧
    (∀ q params k xs, extractOpenJson q = [k] →
      bagFind params k = some (varr xs) →
      membershipRewrite q params =
        replaceFirst q ("@_".data ++ k) (openJsonSubquery k)) := by
  constructor
  · intro q params h
    exact foldl_membershipStep_id _ q h
  · intro q params k xs he hb
    unfold membershipRewrite
    rw [he]
    simp only [List.foldl_cons, List.foldl_nil]
    unfold membershipStep
    rw [hb]

/-- C3 witness: a scalar-valued `ids` leaves the statement unchanged; an
array-valued `ids` whose only occurrence is the parenthesized reference
turns it into the sub-query. -/
theorem C3_witness :
    membershipRewrite "select x from t where id in (@_ids)".data
        [("ids".data, vstr "a".data)] =
      "select x from t where id in (@_ids)".data ∧
    membershipRewrite "select x from t where id in (@_ids)".data
        [("ids".data, varr [vnum 1])] =
      "select x from t where id in (select value from openjson(@_ids))".data := by
  constructor
  · exact C3_membership_amended.1 _ _ (by decide)
  · rw [C3_membership_amended.2 "select x from t where id in (@_ids)".data
      [("ids".data, varr [vnum 1])] "ids".data [vnum 1] (by decide) rfl]
    rfl

/-! ## Claim C8: DELETE synthesis
(src/unnamed/part_002 `#get.delete`, lines 499-525) -/

/-- `${field} = @_${field}` — one equality filter clause. -/
def mkEqClause (f : Str) : Str := f ++ " = @_".data ++ f

/-- `isDefined` of the source: plain JS truthiness (the commented-out
null/undefined variant is not what ships). -/
def isDefined (v : JVal) : Bool := jsTruthy v

/-- The filter-building loop of `#get.delete`: walk the bag entries in
order; skip falsy values; a truthy value whose field is not one of the
table's columns throws; otherwise push its equality clause. -/
def deleteClauses (cols : List Str) : List (Str × JVal) → Except Str (List Str)
  | [] => .ok []
  | (f, v) :: rest =>
    if isDefined v then
      if cols.contains f then
        match deleteClauses cols rest with
        | .ok r => .ok (mkEqClause f :: r)
        | .error e => .error e
      else .error ("Column does not exist: ".data ++ f)
    else deleteClauses cols rest

/-- `#get.delete`: the table's column list (the `schema.columns`
introspection result, passed here as `cols`) must be non-empty; the
filter clauses are built from the bag; an empty clause list throws; the
statement joins the clauses with AND under a WHERE. -/
def deleteQry (tableName : Str) (cols : List Str) (params : List (Str × JVal)) :
    Except Str Str :=
  if cols.isEmpty then .error ("No columns found for table ".data ++ tableName)
  else
    match deleteClauses cols params with
    | .error e => .error e
    | .ok clauses =>
      if clauses.isEmpty then
        .error "No valid filter conditions provided for delete operation".data
      else
        .ok ("delete from ".data ++ tableName ++ "\n      where ".data ++
          joinSep " AND ".data clauses)

theorem toFalse {b : Bool} (h : ¬ b = true) : b = false := by
  cases b
  · rfl
  · exact absurd rfl h

theorem deleteClauses_error_of_bad_field {cols : List Str} :
    ∀ {params : List (Str × JVal)} {f : Str} {v : JVal},
      (f, v) ∈ params → isDefined v = true → cols.contains f = false →
      ∃ e, deleteClauses cols params = .error e := by
  intro params
  induction params with
  | nil =>
    intro f v hm _ _
    exact absurd hm (List.not_mem_nil _)
  | cons gw rest ih =>
    intro f v hm hv hc
    obtain ⟨g, w⟩ := gw
    rcases List.mem_cons.mp hm with heq | hm2
    · injection heq with h1 h2
      subst h1; subst h2
      have hc2 : f ∉ cols := by simpa using hc
      exact ⟨"Column does not exist: ".data ++ f,
        by simp [deleteClauses, hv, hc2]⟩
    · by_cases hw : isDefined w = true
      · by_cases hg : cols.contains g = true
        · obtain ⟨e, he⟩ := ih hm2 hv hc
          have hg2 : g ∈ cols := by simpa using hg
          exact ⟨e, by simp [deleteClauses, hw, hg2, he]⟩
        · have hg2 : g ∉ cols := by
            simpa using toFalse hg
          exact ⟨"Column does not exist: ".data ++ g,
            by simp [deleteClauses, hw, hg2]⟩
      · obtain ⟨e, he⟩ := ih hm2 hv hc
        exact ⟨e, by simp [deleteClauses, toFalse hw, he]⟩

theorem deleteClauses_ok_of_good {cols : List Str} :
    ∀ {params : List (Str × JVal)},
      (∀ fv ∈ params, isDefined fv.2 = true → cols.contains fv.1 = true) →
      deleteClauses cols params =
        .ok ((params.filter (fun fv => isDefined fv.2)).map
          (fun fv => mkEqClause fv.1)) := by
  intro params
  induction params with
  | nil => intro _; rfl
  | cons gw rest ih =>
    intro h
    obtain ⟨g, w⟩ := gw
    have hrest := ih (fun fv hfv hdef => h fv (List.mem_cons_of_mem _ hfv) hdef)
    by_cases hw : isDefined w = true
    · have hg : g ∈ cols := by
        simpa using h (g, w) (List.mem_cons_self _ _) hw
      simp [deleteClauses, hw, hg, hrest, List.filter_cons]
    · simp [deleteClauses, toFalse hw, hrest, List.filter_cons]

/-- C8 counterexample: the bag `{bogus: 0, id: 5}` against a table with
single column `id` — `bogus` is NOT a column of the table, yet synthesis
does not throw: the falsy value makes the loop skip the field before the
column check runs, and the statement is built from the remaining filter.
The claim that an unknown filter field always throws fails here. -/
theorem C8_counterexample_falsy_unknown_field :
    ("bogus".data ∈ ["id".data]) = False ∧
    deleteQry "t".data ["id".data]
        [("bogus".data, vnum 0), ("id".data, vnum 5)] =
      .ok "delete from t\n      where id = @_id".data := by
  constructor
  · simp
  · rfl

/-- C8 (amended): a TRUTHY filter field that is not a column of the table
makes synthesis throw; a bag with no truthy filter field makes synthesis
throw (never an unconditional DELETE); and for an accepted bag the WHERE
clause carries exactly one equality condition per truthy filter field, in
bag order. -/
theorem C8_delete_amended :
    (∀ t cols params f v, (f, v) ∈ params → isDefined v = true →
      cols.contains f = false → isErr (deleteQry t cols params) = true) ∧
    (∀ t cols params, (∀ fv ∈ params, isDefined fv.2 = false) →
      isErr (deleteQry t cols params) = true) ∧
    (∀ t cols params, cols ≠ [] →
      (∀ fv ∈ params, isDefined fv.2 = true → cols.contains fv.1 = true) →
      params.filter (fun fv => isDefined fv.2) ≠ [] →
      deleteQry t cols params =
        .ok ("delete from ".data ++ t ++ "\n      where ".data ++
          joinSep " AND ".data
            ((params.filter (fun fv => isDefined fv.2)).map
              (fun fv => mkEqClause fv.1)))) := by
  refine ⟨?_, ?_, ?_⟩
  · intro t cols params f v hm hv hc
    by_cases h0 : cols.isEmpty
    · simp [deleteQry, h0, isErr]
    · obtain ⟨e, he⟩ := deleteClauses_error_of_bad_field hm hv hc
      simp [deleteQry, h0, he, isErr]
  · intro t cols params h
    by_cases h0 : cols.isEmpty
    · simp [deleteQry, h0, isErr]
    · have hok : deleteClauses cols params = .ok [] := by
        have := @deleteClauses_ok_of_good cols params
          (fun fv hfv hdef => absurd (h fv hfv) (by simp [hdef]))
        rwa [List.filter_eq_nil_iff.mpr
          (fun fv hfv => by simp [h fv hfv]), List.map_nil] at this
      simp [deleteQry, h0, hok, isErr]
  · intro t cols params hcols hgood hne
    have h0 : cols.isEmpty = false := by
      cases cols with
      | nil => exact absurd rfl hcols
      | cons a l => rfl
    have hok := @deleteClauses_ok_of_good cols _ hgood
    have hne2 : ((params.filter (fun fv => isDefined fv.2)).map
        (fun fv => mkEqClause fv.1)).isEmpty = false := by
      cases hf : params.filter (fun fv => isDefined fv.2) with
      | nil => exact absurd hf hne
      | cons a l => rfl
    simp [deleteQry, h0, hok, hne2]

/-- C8 witness: the amended theorem applied at concrete inputs — a truthy
unknown field throws; the all-falsy bag throws; the accepted bag
`{status: "x", id: 5}` yields the two-clause WHERE. -/
theorem C8_witness :
    isErr (deleteQry "t".data ["id".data] [("bogus".data, vnum 1)]) = true ∧
    isErr (deleteQry "t".data ["id".data] [("id".data, vnum 0)]) = true ∧
    deleteQry "t".data ["id".data, "status".data]
        [("status".data, vstr "x".data), ("id".data, vnum 5)] =
      .ok ("delete from ".data ++ "t".data ++ "\n      where ".data ++
        joinSep " AND ".data
          (([(("status".data : Str), vstr "x".data),
             (("id".data : Str), vnum 5)].filter
               (fun fv => isDefined fv.2)).map
            (fun fv => mkEqClause fv.1))) := by
  refine ⟨?_, ?_, ?_⟩
  · exact C8_delete_amended.1 "t".data ["id".data] [("bogus".data, vnum 1)]
      "bogus".data (vnum 1) (List.mem_cons_self _ _) (by decide) (by decide)
  · exact C8_delete_amended.2.1 "t".data ["id".data] [("id".data, vnum 0)]
      (by intro fv hfv
          rcases List.mem_cons.mp hfv with rfl | h2
          · decide
          · exact absurd h2 (List.not_mem_nil _))
  · exact C8_delete_amended.2.2 "t".data ["id".data, "status".data]
      [("status".data, vstr "x".data), ("id".data, vnum 5)]
      (by decide)
      (by intro fv hfv _
          rcases List.mem_cons.mp hfv with rfl | h2
          · decide
          · rcases List.mem_cons.mp h2 with rfl | h3
            · decide
            · exact absurd h3 (List.not_mem_nil _))
      (by intro hftr
          exact absurd (congrArg List.length hftr) (by decide))

/-! ## Claim C10: the `where` helper
(src/index.ts lines 242-273; `isDefined` at line 20) -/

/-- Case-insensitive prefix strip: `some rest` when the text begins with
the pattern up to ASCII case. -/
def stripCI : Str → Str → Option Str
  | s, [] => some s
  | [], _ :: _ => none
  | c :: t, p :: ps => if lowerChar c = lowerChar p then stripCI t ps else none

/-- No word character immediately ahead (the closing `\b`). -/
def noWordAhead : Str → Bool
  | [] => true
  | c :: _ => !isWordChar c

/-- Scan for a word-bounded case-insensitive occurrence of a pattern that
starts and ends with word characters (`/\bWHERE\b/i.test`). -/
def hasWordCIAux (pat : Str) : Bool → Str → Bool
  | _, [] => false
  | prevWord, c :: t =>
    (!prevWord &&
      (match stripCI (c :: t) pat with
       | some rest => noWordAhead rest
       | none => false)) ||
    hasWordCIAux pat (isWordChar c) t

/-- `/\bWHERE\b/i.test(query)`. -/
def hasWhereWord (q : Str) : Bool := hasWordCIAux "where".data false q

/-- The filter clauses the `where` helper pushes: one `field = @_field`
per truthy-valued filter field, in bag order. -/
def whereClausesOf (ff : Bag) : List Str :=
  ff.filterMap (fun fv =>
    if isDefined fv.2 then some (mkEqClause fv.1) else none)

/-- `{...props, ...filterFields}`: keys of `props` keep their position but
take the filter value when overridden; filter-only keys follow in filter
order. -/
def mergeBags (props ff : Bag) : Bag :=
  (props.map (fun p =>
    match bagFind ff p.1 with
    | some v => (p.1, v)
    | none => p)) ++
  ff.filter (fun f => !(props.any (fun p => p.1 = f.1)))

/-- The `where` helper's query transformation and parameter merge, up to
the final `exec` call: build the truthy-filter clauses; if any exist,
extract the trailing ORDER BY (via `getOrderBy` of
src/utils/move-orderby.ts, a module that is not part of the snapshot —
the function is universally quantified in the theorems below), splice the
new conditions after an existing WHERE (`AND`) or as a new WHERE, and
re-append the extracted clause; the bag passed to `exec` is the
spread-merge of `props` and `filterFields`. -/
def whereHelper (getOrderByFn : Str → Option Str) (query : Str)
    (props ff : Bag) : Str × Bag :=
  let wcs := whereClausesOf ff
  let q2 :=
    if wcs.isEmpty then query
    else
      let additionalWhere :=
        if wcs.length > 1 then '(' :: joinSep " AND ".data wcs ++ [')']
        else joinSep " AND ".data wcs
      let hasW := hasWhereWord query
      let rep :=
        match getOrderByFn query with
        | some obc => (replaceFirst query obc [], obc)
        | none => (query, [])
      rep.1 ++ (if hasW then " AND ".data else " WHERE ".data) ++
        additionalWhere ++ ' ' :: rep.2
  (q2, mergeBags props ff)

theorem whereClausesOf_eq (ff : Bag) :
    whereClausesOf ff =
      (ff.filter (fun fv => isDefined fv.2)).map
        (fun fv => mkEqClause fv.1) := by
  induction ff with
  | nil => rfl
  | cons a t ih =>
    unfold whereClausesOf at ih ⊢
    by_cases h : isDefined a.2 = true
    · simp [List.filterMap_cons, h, List.filter_cons, ih]
    · simp [List.filterMap_cons, toFalse h, List.filter_cons, ih]

theorem bagFind_cons_pos {g : Str} {w : JVal} {t : Bag} {k : Str}
    (h : g = k) : bagFind ((g, w) :: t) k = some w := by
  unfold bagFind
  rw [List.find?_cons_of_pos _ (by simp [h])]
  rfl

theorem bagFind_cons_neg {g : Str} {w : JVal} {t : Bag} {k : Str}
    (h : ¬ g = k) : bagFind ((g, w) :: t) k = bagFind t k := by
  unfold bagFind
  rw [List.find?_cons_of_neg _ (by simp [h])]

theorem bagFind_append (a b : Bag) (k : Str) :
    bagFind (a ++ b) k =
      match bagFind a k with
      | some v => some v
      | none => bagFind b k := by
  induction a with
  | nil => simp [bagFind]
  | cons p t ih =>
    obtain ⟨g, w⟩ := p
    by_cases hp : g = k
    · rw [List.cons_append, bagFind_cons_pos hp, bagFind_cons_pos hp]
    · rw [List.cons_append, bagFind_cons_neg hp, bagFind_cons_neg hp, ih]

theorem bagFind_of_mem_nodup : ∀ {ff : Bag} {f : Str} {v : JVal},
    (ff.map Prod.fst).Nodup → (f, v) ∈ ff → bagFind ff f = some v := by
  intro ff
  induction ff with
  | nil =>
    intro f v _ hm
    exact absurd hm (List.not_mem_nil _)
  | cons gw t ih =>
    obtain ⟨g, w⟩ := gw
    intro f v hnd hm
    rcases List.mem_cons.mp hm with heq | hm2
    · injection heq with h1 h2
      subst h1; subst h2
      exact bagFind_cons_pos rfl
    · have hkey : ¬ g = f := by
        intro hk
        have hf : f ∈ t.map Prod.fst := List.mem_map.mpr ⟨(f, v), hm2, rfl⟩
        rw [List.map_cons, List.nodup_cons] at hnd
        exact hnd.1 (hk ▸ hf)
      rw [bagFind_cons_neg hkey]
      exact ih (by rw [List.map_cons, List.nodup_cons] at hnd; exact hnd.2) hm2

theorem bagFind_mapped_none {ff : Bag} : ∀ {props : Bag} {f : Str},
    props.any (fun p => p.1 = f) = false →
    bagFind (props.map (fun p =>
      match bagFind ff p.1 with
      | some v => (p.1, v)
      | none => p)) f = none := by
  intro props
  induction props with
  | nil => intro f _; rfl
  | cons p t ih =>
    obtain ⟨g, w⟩ := p
    intro f ha
    have ha2 : ¬ g = f ∧ t.any (fun p => p.1 = f) = false := by
      rw [List.any_cons] at ha
      constructor
      · intro hp
        rw [hp] at ha
        simp at ha
      · cases hv : t.any (fun p => p.1 = f)
        · rfl
        · rw [hv] at ha
          simp at ha
    rw [List.map_cons]
    cases hb : bagFind ff (g, w).1 with
    | none =>
      simp only [hb]
      rw [bagFind_cons_neg ha2.1]
      exact ih ha2.2
    | some v =>
      simp only [hb]
      rw [bagFind_cons_neg ha2.1]
      exact ih ha2.2

theorem bagFind_mapped_some {ff : Bag} {f : Str} {v : JVal}
    (hv : bagFind ff f = some v) : ∀ {props : Bag},
    props.any (fun p => p.1 = f) = true →
    bagFind (props.map (fun p =>
      match bagFind ff p.1 with
      | some w => (p.1, w)
      | none => p)) f = some v := by
  intro props
  induction props with
  | nil => intro ha; simp [List.any_nil] at ha
  | cons p t ih =>
    obtain ⟨g, w⟩ := p
    intro ha
    rw [List.map_cons]
    by_cases hp : g = f
    · have hb : bagFind ff (g, w).1 = some v := by
        show bagFind ff g = some v
        rw [hp]; exact hv
      simp only [hb]
      exact bagFind_cons_pos hp
    · have ht : t.any (fun p => p.1 = f) = true := by
        rw [List.any_cons] at ha
        cases hv2 : t.any (fun p => p.1 = f)
        · rw [hv2] at ha
          simp [hp] at ha
        · rfl
      cases hb : bagFind ff (g, w).1 with
      | none =>
        simp only [hb]
        rw [bagFind_cons_neg hp]
        exact ih ht
      | some u =>
        simp only [hb]
        rw [bagFind_cons_neg hp]
        exact ih ht

/-- Filter-field lookups survive the spread-merge: a filter entry (truthy
or falsy) is what the merged bag yields under its key. -/
theorem mergeBags_find {props ff : Bag} {f : Str} {v : JVal}
    (hnd : (ff.map Prod.fst).Nodup) (hm : (f, v) ∈ ff) :
    bagFind (mergeBags props ff) f = some v := by
  have hv : bagFind ff f = some v := bagFind_of_mem_nodup hnd hm
  unfold mergeBags
  rw [bagFind_append]
  by_cases hk : props.any (fun p => p.1 = f) = true
  · rw [bagFind_mapped_some hv hk]
  · rw [bagFind_mapped_none (toFalse hk)]
    apply bagFind_of_mem_nodup
    · exact List.Nodup.sublist
        (List.Sublist.map Prod.fst (List.filter_sublist ff)) hnd
    · exact List.mem_filter.mpr ⟨hm, by simp [toFalse hk]⟩

/-- C10: in the `where` helper, a falsy-valued filter field contributes no
equality clause (the pushed clauses are exactly those of the truthy
fields, in order); when every filter value is falsy the statement text
goes to `exec` unchanged; and yet every filter field — falsy ones
included — is in the bag handed to `exec` (the spread-merge), whatever
`getOrderBy` does. -/
theorem C10_where_falsy_fields :
    (∀ ff, whereClausesOf ff =
      (ff.filter (fun fv => isDefined fv.2)).map
        (fun fv => mkEqClause fv.1)) ∧
    (∀ gob q props ff, (∀ fv ∈ ff, isDefined fv.2 = false) →
      (whereHelper gob q props ff).1 = q) ∧
    (∀ gob q props ff, (whereHelper gob q props ff).2 = mergeBags props ff) ∧
    (∀ props ff f v, (ff.map Prod.fst).Nodup → (f, v) ∈ ff →
      bagFind (mergeBags props ff) f = some v) := by
  refine ⟨whereClausesOf_eq, ?_, fun _ _ _ _ => rfl,
    fun _ _ _ _ hnd hm => mergeBags_find hnd hm⟩
  intro gob q props ff h
  have h1 : whereClausesOf ff = [] := by
    rw [whereClausesOf_eq,
      List.filter_eq_nil_iff.mpr (fun fv hfv => by simp [h fv hfv]),
      List.map_nil]
  simp [whereHelper, h1]

/-- C10 witness: with both filter values falsy (`0` and the empty string)
the statement is unchanged, and the falsy field is still in the merged
bag. -/
theorem C10_witness :
    (whereHelper (fun _ => none) "select a from t".data
      [("a".data, vnum 1)]
      [("f".data, vnum 0), ("g".data, vstr [])]).1 =
      "select a from t".data ∧
    bagFind (mergeBags [("a".data, vnum 1)] [("f".data, vnum 0)]) "f".data =
      some (vnum 0) := by
  constructor
  · exact C10_where_falsy_fields.2.1 (fun _ => none) "select a from t".data
      [("a".data, vnum 1)] [("f".data, vnum 0), ("g".data, vstr [])]
      (by intro fv hfv
          rcases List.mem_cons.mp hfv with rfl | h2
          · decide
          · rcases List.mem_cons.mp h2 with rfl | h3
            · decide
            · exact absurd h3 (List.not_mem_nil _))
  · exact C10_where_falsy_fields.2.2.2 [("a".data, vnum 1)]
      [("f".data, vnum 0)] "f".data (vnum 0)
      (by decide) (List.mem_cons_self _ _)

/-! ## Claim C9: JSON.parse and the bind/shape round trip
(src/unnamed/part_001 `#reqInput` lines 268-295 for binding;
src/index.ts `#get.parsedJson` lines 463-496 for shaping) -/

/-- JSON whitespace. -/
def isJsonWs (c : Char) : Bool :=
  c = ' ' || c = Char.ofNat 9 || c = Char.ofNat 10 || c = Char.ofNat 13

/-- Skip JSON whitespace. -/
def skipWs : Str → Str
  | [] => []
  | c :: t => if isJsonWs c then skipWs t else c :: t

/-- Hexadecimal digit value. -/
def hexVal (c : Char) : Option Nat :=
  if '0' ≤ c && c ≤ '9' then some (c.toNat - 48)
  else if 'a' ≤ c && c ≤ 'f' then some (c.toNat - 87)
  else if 'A' ≤ c && c ≤ 'F' then some (c.toNat - 55)
  else none

/-- Decode a single-character JSON escape. -/
def escDecode (e : Char) : Option Char :=
  if e = '"' then some '"'
  else if e = '\\' then some '\\'
  else if e = '/' then some '/'
  else if e = 'b' then some (Char.ofNat 8)
  else if e = 'f' then some (Char.ofNat 12)
  else if e = 'n' then some (Char.ofNat 10)
  else if e = 'r' then some (Char.ofNat 13)
  else if e = 't' then some (Char.ofNat 9)
  else none

/-- Parse a JSON string body (the opening quote already consumed):
returns the decoded characters and the text after the closing quote.
Raw control characters are rejected, as `JSON.parse` does. -/
def parseStrBody : Str → Option (Str × Str)
  | [] => none
  | c :: t =>
    if c = '"' then some ([], t)
    else if c = '\\' then
      match t with
      | [] => none
      | e :: t2 =>
        if e = 'u' then
          match t2 with
          | h1 :: h2 :: h3 :: h4 :: t3 =>
            match hexVal h1, hexVal h2, hexVal h3, hexVal h4 with
            | some a, some b, some c2, some d =>
              (parseStrBody t3).map (fun p =>
                (Char.ofNat (((a * 16 + b) * 16 + c2) * 16 + d) :: p.1, p.2))
            | _, _, _, _ => none
          | _ => none
        else
          match escDecode e with
          | some ch => (parseStrBody t2).map (fun p => (ch :: p.1, p.2))
          | none => none
    else if c.toNat < 32 then none
    else (parseStrBody t).map (fun p => (c :: p.1, p.2))

/-- A decimal digit. -/
def isDigitChar (c : Char) : Bool := '0' ≤ c && c ≤ '9'

/-- Longest digit run, as digit values, plus the remainder. -/
def spanDigits : Str → List Nat × Str
  | [] => ([], [])
  | c :: t =>
    if isDigitChar c then
      let (ds, r) := spanDigits t
      ((c.toNat - 48) :: ds, r)
    else ([], c :: t)

/-- Value of a most-significant-first digit list. -/
def digitsVal (ds : List Nat) : Nat := ds.foldl (fun a d => a * 10 + d) 0

/-- The optional exponent part of a JSON number, applied to an already
parsed base value. -/
def parseExpDigits (base : ℚ) (neg : Bool) (s : Str) : Option (JVal × Str) :=
  let p :=
    match s with
    | '+' :: t => (false, t)
    | '-' :: t => (true, t)
    | _ => (false, s)
  match spanDigits p.2 with
  | ([], _) => none
  | (eds, r) =>
    let m : ℚ := (10 : ℚ) ^ digitsVal eds
    let val : ℚ := if p.1 then base / m else base * m
    some (JVal.vnum (if neg then -val else val), r)

/-- Dispatch after the integer part: fraction, exponent, or done. -/
def parseAfterInt (base : ℚ) (neg : Bool) (s : Str) : Option (JVal × Str) :=
  match s with
  | [] => some (JVal.vnum (if neg then -base else base), [])
  | c :: t =>
    if c = '.' then
      match spanDigits t with
      | ([], _) => none
      | (fds, r2) =>
        let fpart : ℚ := (digitsVal fds : ℚ) / ((10 : ℚ) ^ fds.length)
        match r2 with
        | [] => some (JVal.vnum (if neg then -(base + fpart) else base + fpart), [])
        | c2 :: t2 =>
          if c2 = 'e' ∨ c2 = 'E' then parseExpDigits (base + fpart) neg t2
          else some (JVal.vnum (if neg then -(base + fpart) else base + fpart),
            c2 :: t2)
    else if c = 'e' ∨ c = 'E' then parseExpDigits base neg t
    else some (JVal.vnum (if neg then -base else base), c :: t)

/-- The sign-stripped body of a JSON number parse. -/
def parseNumBody (neg : Bool) (s2 : Str) : Option (JVal × Str) :=
  match spanDigits s2 with
  | ([], _) => none
  | (ids, r1) => parseAfterInt ((digitsVal ids : Nat) : ℚ) neg r1

/-- Parse a JSON number.  (Leading-zero rejection is not modeled; no
serializer output carries one.) -/
def parseNumber (s : Str) : Option (JVal × Str) :=
  match s with
  | c :: t => if c = '-' then parseNumBody true t else parseNumBody false (c :: t)
  | [] => parseNumBody false []

mutual

/-- Parse one JSON value.  The fuel decreases on every nested call; the
top level supplies `2 * length + 2`, which the round-trip development
shows sufficient. -/
def parseVal : Nat → Str → Option (JVal × Str)
  | 0, _ => none
  | fuel + 1, s =>
    match skipWs s with
    | [] => none
    | c :: t =>
      if c = 'n' then
        match t with
        | 'u' :: 'l' :: 'l' :: r => some (JVal.vnull, r)
        | _ => none
      else if c = 't' then
        match t with
        | 'r' :: 'u' :: 'e' :: r => some (JVal.vbool true, r)
        | _ => none
      else if c = 'f' then
        match t with
        | 'a' :: 'l' :: 's' :: 'e' :: r => some (JVal.vbool false, r)
        | _ => none
      else if c = '"' then
        (parseStrBody t).map (fun p => (JVal.vstr p.1, p.2))
      else if c = '[' then
        match skipWs t with
        | [] => none
        | d :: t2 =>
          if d = ']' then some (JVal.varr [], t2)
          else (parseElems fuel (d :: t2)).map (fun p => (JVal.varr p.1, p.2))
      else if c = '{' then
        match skipWs t with
        | [] => none
        | d :: t2 =>
          if d = '}' then some (JVal.vobj [], t2)
          else (parseMembers fuel (d :: t2)).map (fun p => (JVal.vobj p.1, p.2))
      else parseNumber (c :: t)

/-- Parse the elements of a non-empty JSON array, up to and including the
closing bracket. -/
def parseElems : Nat → Str → Option (List JVal × Str)
  | 0, _ => none
  | fuel + 1, s =>
    match parseVal fuel s with
    | none => none
    | some (v, r) =>
      match skipWs r with
      | [] => none
      | d :: r2 =>
        if d = ',' then
          match parseElems fuel r2 with
          | some (xs, rest) => some (v :: xs, rest)
          | none => none
        else if d = ']' then some ([v], r2)
        else none

/-- Parse the members of a non-empty JSON object, up to and including the
closing brace. -/
def parseMembers : Nat → Str → Option (List (Str × JVal) × Str)
  | 0, _ => none
  | fuel + 1, s =>
    match skipWs s with
    | [] => none
    | c :: t =>
      if c = '"' then
        match parseStrBody t with
        | none => none
        | some (k, r1) =>
          match skipWs r1 with
          | [] => none
          | d :: r2 =>
            if d = ':' then
              match parseVal fuel r2 with
              | none => none
              | some (v, r3) =>
                match skipWs r3 with
                | [] => none
                | e2 :: r4 =>
                  if e2 = ',' then
                    match parseMembers fuel r4 with
                    | some (fs, rest) => some ((k, v) :: fs, rest)
                    | none => none
                  else if e2 = '}' then some ([(k, v)], r4)
                  else none
            else none
      else none

end

/-- `JSON.parse`: parse one value, allow trailing whitespace only. -/
def jsonParse (s : Str) : Option JVal :=
  match parseVal (2 * s.length + 2) s with
  | some (v, rest) => if (skipWs rest).isEmpty then some v else none
  | none => none

/-- The integer-string test `/^-?\d+$/` of `isNumeric`. -/
def isNumericStr (s : Str) : Bool :=
  match s with
  | '-' :: t => !t.isEmpty && t.all isDigitChar
  | t => !t.isEmpty && t.all isDigitChar

/-- `Number(str)` for a string matching `/^-?\d+$/`. -/
def strToNumber (s : Str) : ℚ :=
  match s with
  | '-' :: t => -((digitsVal (spanDigits t).1 : Nat) : ℚ)
  | t => ((digitsVal (spanDigits t).1 : Nat) : ℚ)

/-- The per-cell coercion of `#jsonParseData` (and `#get.parsedJson`):
null columns become undefined; strings matching the integer pattern
become numbers; strings that `JSON.parse` accepts become the parsed
structure; all other cells pass through. -/
def shapeCell (cell : JVal) : JVal :=
  match cell with
  | JVal.vnull => JVal.vundef
  | JVal.vstr s =>
    if isNumericStr s then JVal.vnum (strToNumber s)
    else
      match jsonParse s with
      | some nv => nv
      | none => JVal.vstr s
  | other => other

/-- The JSON-exact values: those the serializer/parser pair reproduces
verbatim — null, booleans, integral numbers below the engine's exact
range limit, strings, arrays and objects of such values.  (Undefined,
dates and sets serialize to a DIFFERENT value by design, and non-integral
doubles round-trip through decimal renderings not modeled exactly.) -/
def goodJson : JVal → Bool
  | JVal.vnull => true
  | JVal.vbool _ => true
  | JVal.vnum q => decide (q.den = 1) && decide (q.num.natAbs < 10 ^ 21)
  | JVal.vstr _ => true
  | JVal.varr xs => goA xs
  | JVal.vobj fs => goF fs
  | _ => false
where
  goA : List JVal → Bool
    | [] => true
    | x :: r => goodJson x && goA r
  goF : List (Str × JVal) → Bool
    | [] => true
    | (_, v) :: r => goodJson v && goF r

/-- Parser-depth measure used for the fuel bound. -/
def msize : JVal → Nat
  | JVal.varr xs => 2 + goA xs
  | JVal.vobj fs => 2 + goF fs
  | _ => 1
where
  goA : List JVal → Nat
    | [] => 0
    | x :: r => msize x + 1 + goA r
  goF : List (Str × JVal) → Nat
    | [] => 0
    | (_, v) :: r => msize v + 1 + goF r

/-! ### Round-trip lemmas: strings -/

theorem skipWs_cons {c : Char} {t : Str} (h : isJsonWs c = false) :
    skipWs (c :: t) = c :: t := by
  simp [skipWs, h]

theorem hexVal_hexDigit {d : Nat} (h : d < 16) :
    hexVal (hexDigit d) = some d := by
  interval_cases d <;> decide

theorem parseStrBody_round : ∀ (s rest : Str),
    parseStrBody ((s.map escChar).flatten ++ '"' :: rest) = some (s, rest) := by
  intro s
  induction s with
  | nil =>
    intro rest
    rw [List.map_nil, List.flatten_nil, List.nil_append, parseStrBody.eq_def]
    simp
  | cons c t ih =>
    intro rest
    simp only [List.map_cons, List.flatten_cons, List.append_assoc]
    by_cases h1 : c = '"'
    · subst h1
      rw [show escChar '"' = ['\\', '"'] from by decide]
      simp only [List.cons_append, List.nil_append]
      rw [parseStrBody.eq_def]
      simp [escDecode, ih rest]
    · by_cases h2 : c = '\\'
      · subst h2
        rw [show escChar '\\' = ['\\', '\\'] from by decide]
        simp only [List.cons_append, List.nil_append]
        rw [parseStrBody.eq_def]
        simp [escDecode, ih rest]
      · by_cases h3 : c = Char.ofNat 8
        · subst h3
          rw [show escChar (Char.ofNat 8) = ['\\', 'b'] from by decide]
          simp only [List.cons_append, List.nil_append]
          rw [parseStrBody.eq_def]
          simp [escDecode, ih rest]
        · by_cases h4 : c = Char.ofNat 9
          · subst h4
            rw [show escChar (Char.ofNat 9) = ['\\', 't'] from by decide]
            simp only [List.cons_append, List.nil_append]
            rw [parseStrBody.eq_def]
            simp [escDecode, ih rest]
          · by_cases h5 : c = Char.ofNat 10
            · subst h5
              rw [show escChar (Char.ofNat 10) = ['\\', 'n'] from by decide]
              simp only [List.cons_append, List.nil_append]
              rw [parseStrBody.eq_def]
              simp [escDecode, ih rest]
            · by_cases h6 : c = Char.ofNat 12
              · subst h6
                rw [show escChar (Char.ofNat 12) = ['\\', 'f'] from by decide]
                simp only [List.cons_append, List.nil_append]
                rw [parseStrBody.eq_def]
                simp [escDecode, ih rest]
              · by_cases h7 : c = Char.ofNat 13
                · subst h7
                  rw [show escChar (Char.ofNat 13) = ['\\', 'r'] from by decide]
                  simp only [List.cons_append, List.nil_append]
                  rw [parseStrBody.eq_def]
                  simp [escDecode, ih rest]
                · by_cases h8 : c.toNat < 32
                  · have hdiv : c.toNat / 16 < 16 := by omega
                    have hmod : c.toNat % 16 < 16 := Nat.mod_lt _ (by norm_num)
                    simp only [escChar, if_neg h1, if_neg h2, if_neg h3,
                      if_neg h4, if_neg h5, if_neg h6, if_neg h7, if_pos h8,
                      List.cons_append, List.nil_append]
                    rw [parseStrBody.eq_def]
                    simp only []
                    rw [show hexVal '0' = some 0 from by decide]
                    have hx : c.toNat / 16 * 16 + c.toNat % 16 = c.toNat := by
                      omega
                    simp [hexVal_hexDigit hdiv, hexVal_hexDigit hmod, ih rest,
                      hx, Char.ofNat_toNat]
                  · simp only [escChar, if_neg h1, if_neg h2, if_neg h3,
                      if_neg h4, if_neg h5, if_neg h6, if_neg h7, if_neg h8,
                      List.cons_append, List.nil_append]
                    rw [parseStrBody.eq_def]
                    simp only []
                    rw [if_neg h1, if_neg h2, if_neg h8]
                    simp [ih rest]

/-! ### Round-trip lemmas: numbers -/

theorem natDigitsRev_eq : ∀ (fuel n : Nat), n ≤ fuel →
    natDigitsRev fuel n = Nat.digits 10 n := by
  intro fuel
  induction fuel with
  | zero =>
    intro n h
    interval_cases n
    simp [natDigitsRev]
  | succ f ih =>
    intro n h
    by_cases hn : n = 0
    · subst hn; simp [natDigitsRev]
    · rw [natDigitsRev, if_neg hn, ih (n / 10) (by omega),
        ← Nat.digits_def' (by norm_num : (1 : ℕ) < 10) (Nat.pos_of_ne_zero hn)]

theorem isDigitChar_digitChar {d : Nat} (h : d < 10) :
    isDigitChar (digitChar d) = true := by
  interval_cases d <;> decide

theorem digitChar_val {d : Nat} (h : d < 10) :
    (digitChar d).toNat - 48 = d := by
  interval_cases d <;> decide

/-- Whatever follows a rendered number must not begin with a digit. -/
def noDigitAhead : Str → Bool
  | [] => true
  | c :: _ => !isDigitChar c

/-- Whatever follows a rendered number must not extend it: no digit, no
decimal point, no exponent marker. -/
def numBoundary : Str → Bool
  | [] => true
  | c :: _ => !(isDigitChar c || c = '.' || c = 'e' || c = 'E')

theorem numBoundary_noDigit {rest : Str} (h : numBoundary rest = true) :
    noDigitAhead rest = true := by
  cases rest with
  | nil => rfl
  | cons c t =>
    simp only [numBoundary, Bool.not_eq_true'] at h
    simp only [noDigitAhead, Bool.not_eq_true']
    cases hv : isDigitChar c
    · rfl
    · rw [hv] at h; simp at h

theorem spanDigits_round : ∀ (ds : List Nat), (∀ d ∈ ds, d < 10) →
    ∀ rest : Str, noDigitAhead rest = true →
    spanDigits (ds.map digitChar ++ rest) = (ds, rest) := by
  intro ds
  induction ds with
  | nil =>
    intro _ rest h
    cases rest with
    | nil => rfl
    | cons c r =>
      have hc : isDigitChar c = false := by
        simpa [noDigitAhead, Bool.not_eq_true'] using h
      simp [spanDigits, hc]
  | cons d t ih =>
    intro hd rest h
    have hd10 : d < 10 := hd d (List.mem_cons_self _ _)
    simp only [List.map_cons, List.cons_append]
    rw [spanDigits.eq_def]
    simp only []
    rw [if_pos (isDigitChar_digitChar hd10),
      ih (fun x hm => hd x (List.mem_cons_of_mem _ hm)) rest h]
    simp [digitChar_val hd10]

theorem digitsVal_reverse (l : List Nat) :
    digitsVal l.reverse = Nat.ofDigits 10 l := by
  induction l with
  | nil => rfl
  | cons d t ih =>
    rw [List.reverse_cons, digitsVal, List.foldl_append]
    rw [digitsVal] at ih
    rw [ih, Nat.ofDigits_cons]
    simp only [List.foldl_cons, List.foldl_nil]
    omega

theorem parseAfterInt_done (base : ℚ) (neg : Bool) (rest : Str)
    (h : numBoundary rest = true) :
    parseAfterInt base neg rest =
      some (JVal.vnum (if neg then -base else base), rest) := by
  cases rest with
  | nil => rfl
  | cons c t =>
    have h2 : ¬ (isDigitChar c || c = '.' || c = 'e' || c = 'E') = true := by
      simp only [numBoundary, Bool.not_eq_true'] at h
      simp [h]
    have hdot : ¬ c = '.' := fun hc => h2 (by simp [hc])
    have he : ¬ (c = 'e' ∨ c = 'E') := fun hc => h2 (by rcases hc with hc | hc <;> simp [hc])
    rw [parseAfterInt.eq_def]
    simp only []
    rw [if_neg hdot, if_neg he]

theorem parseNumBody_nat (n : Nat) (neg : Bool) (rest : Str)
    (h : numBoundary rest = true) :
    parseNumBody neg (natToDec n ++ rest) =
      some (JVal.vnum (if neg then -(n : ℚ) else (n : ℚ)), rest) := by
  by_cases hn : n = 0
  · subst hn
    rw [show natToDec 0 = ['0'] from rfl]
    rw [parseNumBody]
    rw [show (['0'] : Str) ++ rest = [0].map digitChar ++ rest from rfl]
    rw [spanDigits_round [0] (by simp) rest (numBoundary_noDigit h)]
    simp only []
    rw [parseAfterInt_done _ _ _ h]
    cases neg <;> simp [digitsVal]
  · obtain ⟨d, ds, hds⟩ : ∃ d ds, (Nat.digits 10 n).reverse = d :: ds := by
      rcases hrev : (Nat.digits 10 n).reverse with _ | ⟨d, ds⟩
      · exfalso
        apply Nat.digits_ne_nil_iff_ne_zero.mpr hn
        have := congrArg List.reverse hrev
        simpa using this
      · exact ⟨d, ds, rfl⟩
    have hall : ∀ x ∈ d :: ds, x < 10 := by
      intro x hx
      have hmem : x ∈ Nat.digits 10 n := by
        rw [← List.mem_reverse, hds]
        exact hx
      exact Nat.digits_lt_base (by norm_num) hmem
    rw [natToDec, if_neg hn, natDigitsRev_eq n n (Nat.le_refl n), hds,
      parseNumBody]
    rw [spanDigits_round (d :: ds) hall rest (numBoundary_noDigit h)]
    simp only []
    rw [show digitsVal (d :: ds) = n from by
      rw [← hds, digitsVal_reverse, Nat.ofDigits_digits]]
    rw [parseAfterInt_done _ _ _ h]

theorem digitChar_ne_dash {d : Nat} (h : d < 10) : ¬ digitChar d = '-' := by
  interval_cases d <;> decide

theorem natToDec_head (n : Nat) :
    ∃ d cs, d < 10 ∧ natToDec n = digitChar d :: cs := by
  by_cases hn : n = 0
  · subst hn
    exact ⟨0, [], by norm_num, rfl⟩
  · obtain ⟨d, ds, hds⟩ : ∃ d ds, (Nat.digits 10 n).reverse = d :: ds := by
      rcases hrev : (Nat.digits 10 n).reverse with _ | ⟨d, ds⟩
      · exfalso
        apply Nat.digits_ne_nil_iff_ne_zero.mpr hn
        have := congrArg List.reverse hrev
        simpa using this
      · exact ⟨d, ds, rfl⟩
    have hd10 : d < 10 := by
      have hmem : d ∈ Nat.digits 10 n := by
        rw [← List.mem_reverse, hds]
        exact List.mem_cons_self _ _
      exact Nat.digits_lt_base (by norm_num) hmem
    exact ⟨d, ds.map digitChar, hd10, by
      rw [natToDec, if_neg hn, natDigitsRev_eq n n (Nat.le_refl n), hds,
        List.map_cons]⟩

theorem parseNumber_int (i : Int) (rest : Str) (h : numBoundary rest = true) :
    parseNumber (intToDec i ++ rest) = some (JVal.vnum (i : ℚ), rest) := by
  by_cases hi : i < 0
  · rw [intToDec, if_pos hi, List.cons_append, parseNumber.eq_def]
    simp only []
    rw [if_pos trivial, parseNumBody_nat i.natAbs true rest h]
    have h1 : ((i.natAbs : ℕ) : ℚ) = -(i : ℚ) := by
      rw [Int.cast_natAbs, abs_of_nonpos (le_of_lt hi)]
      push_cast
      ring
    congr 2
    rw [if_pos (by trivial), h1]
    ring
  · rw [intToDec, if_neg hi]
    obtain ⟨d, cs, hd10, hnat⟩ := natToDec_head i.natAbs
    rw [hnat, List.cons_append, parseNumber.eq_def]
    simp only []
    rw [if_neg (digitChar_ne_dash hd10), ← List.cons_append, ← hnat,
      parseNumBody_nat i.natAbs false rest h]
    have h1 : ((i.natAbs : ℕ) : ℚ) = (i : ℚ) := by
      rw [Int.cast_natAbs, abs_of_nonneg (le_of_not_lt hi)]
    congr 2
    rw [if_neg (by decide : ¬ ((false : Bool) = true)), h1]

/-! ### Round-trip lemmas: heads and list bodies -/

theorem msize_pos (v : JVal) : 0 < msize v := by
  cases v <;> simp [msize]

theorem intToDec_headInfo (i : Int) : ∃ c cs, intToDec i = c :: cs ∧
    (c = '-' ∨ ∃ d, d < 10 ∧ c = digitChar d) := by
  by_cases hi : i < 0
  · exact ⟨'-', natToDec i.natAbs, by rw [intToDec, if_pos hi], .inl rfl⟩
  · obtain ⟨d, cs, hd, hnat⟩ := natToDec_head i.natAbs
    exact ⟨digitChar d, cs, by rw [intToDec, if_neg hi, hnat],
      .inr ⟨d, hd, rfl⟩⟩

theorem numHead_facts {c : Char}
    (h : c = '-' ∨ ∃ d, d < 10 ∧ c = digitChar d) :
    isJsonWs c = false ∧ ¬ c = ']' ∧ ¬ c = '}' ∧ ¬ c = 'n' ∧ ¬ c = 't' ∧
    ¬ c = 'f' ∧ ¬ c = '"' ∧ ¬ c = '[' ∧ ¬ c = '{' := by
  rcases h with rfl | ⟨d, hd, rfl⟩
  · refine ⟨by decide, by decide, by decide, by decide, by decide, by decide,
      by decide, by decide, by decide⟩
  · interval_cases d <;>
      refine ⟨by decide, by decide, by decide, by decide, by decide,
        by decide, by decide, by decide, by decide⟩

/-- A good value's rendering is non-empty, begins with a non-whitespace
character, and never opens with a closing bracket. -/
theorem stringify_headInfo (v : JVal) (hg : goodJson v = true) :
    ∃ c cs, jsonStringify v = c :: cs ∧ isJsonWs c = false ∧
      ¬ c = ']' ∧ ¬ c = '}' := by
  cases v with
  | vnull => exact ⟨'n', "ull".data, rfl, by decide, by decide, by decide⟩
  | vundef => simp [goodJson] at hg
  | vbool b =>
    cases b
    · exact ⟨'f', "alse".data, rfl, by decide, by decide, by decide⟩
    · exact ⟨'t', "rue".data, rfl, by decide, by decide, by decide⟩
  | vnum q =>
    have hden : q.den = 1 := by
      simp only [goodJson, Bool.and_eq_true, decide_eq_true_eq] at hg
      exact hg.1
    obtain ⟨c, cs, heq, hkind⟩ := intToDec_headInfo q.num
    obtain ⟨hws, hbr, hbrace, -, -, -, -, -, -⟩ := numHead_facts hkind
    exact ⟨c, cs,
      by rw [show jsonStringify (JVal.vnum q) = numToString q from rfl,
        numToString, if_pos hden, heq],
      hws, hbr, hbrace⟩
  | vstr s =>
    exact ⟨'"', (s.map escChar).flatten ++ ['"'], rfl, by decide, by decide,
      by decide⟩
  | varr xs =>
    exact ⟨'[', joinSep [','] (jsonStringify.goArr xs) ++ [']'], rfl,
      by decide, by decide, by decide⟩
  | vobj fs =>
    exact ⟨'{', joinSep [','] (jsonStringify.goObj fs) ++ ['}'], rfl,
      by decide, by decide, by decide⟩
  | vdate iso => simp [goodJson] at hg
  | vset xs => simp [goodJson] at hg

theorem goArr_eq (xs : List JVal) :
    jsonStringify.goArr xs = xs.map jsonStringify := by
  induction xs with
  | nil => rfl
  | cons x r ih => rw [jsonStringify.goArr, ih, List.map_cons]

theorem goF_cons {k : Str} {v : JVal} {r : List (Str × JVal)} :
    goodJson.goF ((k, v) :: r) = (goodJson v && goodJson.goF r) := rfl

theorem goA_cons {x : JVal} {r : List JVal} :
    goodJson.goA (x :: r) = (goodJson x && goodJson.goA r) := rfl

theorem goObj_eq : ∀ (fs : List (Str × JVal)), goodJson.goF fs = true →
    jsonStringify.goObj fs =
      fs.map (fun kv => quoteStr kv.1 ++ ':' :: jsonStringify kv.2) := by
  intro fs
  induction fs with
  | nil => intro _; rfl
  | cons kv r ih =>
    intro h
    obtain ⟨k, v⟩ := kv
    rw [goF_cons, Bool.and_eq_true] at h
    cases v with
    | vundef => simp [goodJson] at h
    | vnull => rw [jsonStringify.goObj, ih h.2, List.map_cons]; simp
    | vbool b => rw [jsonStringify.goObj, ih h.2, List.map_cons]; simp
    | vnum q => rw [jsonStringify.goObj, ih h.2, List.map_cons]; simp
    | vstr s => rw [jsonStringify.goObj, ih h.2, List.map_cons]; simp
    | varr xs => rw [jsonStringify.goObj, ih h.2, List.map_cons]; simp
    | vobj fs2 => rw [jsonStringify.goObj, ih h.2, List.map_cons]; simp
    | vdate iso => rw [jsonStringify.goObj, ih h.2, List.map_cons]; simp
    | vset xs => rw [jsonStringify.goObj, ih h.2, List.map_cons]; simp

/-! ### The serializer/parser round-trip -/

/-- One rendered object member: quoted key, colon, rendered value. -/
def memberStr (kv : Str × JVal) : Str :=
  quoteStr kv.1 ++ ':' :: jsonStringify kv.2

theorem goObj_eq_member (fs : List (Str × JVal)) (h : goodJson.goF fs = true) :
    jsonStringify.goObj fs = fs.map memberStr := goObj_eq fs h

theorem joinSep_cons (sep a : Str) (l : List Str) :
    ∃ u, joinSep sep (a :: l) = a ++ u := by
  cases l with
  | nil => exact ⟨[], (List.append_nil a).symm⟩
  | cons b r =>
    exact ⟨sep ++ joinSep sep (b :: r), by rw [joinSep, List.append_assoc]⟩

/-- The round-trip core, by strong induction on the parse measure: the
parser reads back exactly the serializer's output, for values, array
element lists and object member lists, with any boundary-safe suffix. -/
theorem roundtrip_master : ∀ N : Nat,
    (∀ v : JVal, msize v ≤ N → ∀ fuel rest, goodJson v = true →
      msize v ≤ fuel → numBoundary rest = true →
      parseVal fuel (jsonStringify v ++ rest) = some (v, rest)) ∧
    (∀ xs : List JVal, msize.goA xs + 1 ≤ N → ∀ fuel rest,
      goodJson.goA xs = true → ¬ xs = [] → msize.goA xs + 1 ≤ fuel →
      parseElems fuel (joinSep [','] (xs.map jsonStringify) ++ ']' :: rest) =
        some (xs, rest)) ∧
    (∀ fs : List (Str × JVal), msize.goF fs + 1 ≤ N → ∀ fuel rest,
      goodJson.goF fs = true → ¬ fs = [] → msize.goF fs + 1 ≤ fuel →
      parseMembers fuel
        (joinSep [','] (fs.map memberStr) ++ '}' :: rest) =
        some (fs, rest)) := by
  intro N
  induction N using Nat.strong_induction_on with
  | h N ih =>
  refine ⟨?_, ?_, ?_⟩
  · intro v hN fuel rest hg hfuel hb
    have hvp := msize_pos v
    cases fuel with
    | zero => omega
    | succ f =>
      cases v with
      | vnull => rfl
      | vundef => simp [goodJson] at hg
      | vdate iso => simp [goodJson] at hg
      | vset xs => simp [goodJson] at hg
      | vbool b => cases b <;> rfl
      | vnum q =>
        have hg2 : (decide (q.den = 1) && decide (q.num.natAbs < 10 ^ 21)) =
            true := hg
        rw [Bool.and_eq_true, decide_eq_true_eq, decide_eq_true_eq] at hg2
        have hden : q.den = 1 := hg2.1
        obtain ⟨c, cs, hic, hkind⟩ := intToDec_headInfo q.num
        obtain ⟨hws, hrb, hcb, hn, ht, hf2, hq2, hlb, hob⟩ := numHead_facts hkind
        have hq : ((q.num : Int) : ℚ) = q := by
          have h1 := Rat.num_div_den q
          rw [hden] at h1
          simpa using h1
        have hs : jsonStringify (JVal.vnum q) ++ rest = c :: (cs ++ rest) := by
          rw [show jsonStringify (JVal.vnum q) = numToString q from rfl]
          rw [numToString, if_pos hden, hic, List.cons_append]
        rw [hs, parseVal.eq_def]
        simp only []
        rw [skipWs_cons hws]
        simp only []
        rw [if_neg hn, if_neg ht, if_neg hf2, if_neg hq2, if_neg hlb,
          if_neg hob, ← List.cons_append, ← hic,
          parseNumber_int q.num rest hb, hq]
      | vstr s =>
        have hs : jsonStringify (JVal.vstr s) ++ rest =
            '"' :: ((s.map escChar).flatten ++ '"' :: rest) := by
          rw [show jsonStringify (JVal.vstr s) = quoteStr s from rfl, quoteStr]
          simp [List.append_assoc]
        rw [hs, parseVal.eq_def]
        simp only []
        rw [skipWs_cons (by decide)]
        simp only []
        rw [if_neg (by decide), if_neg (by decide), if_neg (by decide),
          if_pos (by trivial), parseStrBody_round]
        rfl
      | varr xs =>
        cases xs with
        | nil => rfl
        | cons x r =>
          have hga3 : goodJson.goA (x :: r) = true := hg
          have hgx : goodJson x = true ∧ goodJson.goA r = true := by
            have h2 : (goodJson x && goodJson.goA r) = true := hg
            rw [Bool.and_eq_true] at h2; exact h2
          have hms1 : msize (JVal.varr (x :: r)) = 2 + msize.goA (x :: r) := rfl
          obtain ⟨c0, cs0, hsx, hws0, hnb0, hnc0⟩ := stringify_headInfo x hgx.1
          obtain ⟨u, hju⟩ :=
            joinSep_cons [','] (jsonStringify x) (r.map jsonStringify)
          have hin : jsonStringify (JVal.varr (x :: r)) ++ rest =
              '[' :: (joinSep [','] ((x :: r).map jsonStringify) ++
                ']' :: rest) := by
            rw [show jsonStringify (JVal.varr (x :: r)) =
              '[' :: (joinSep [','] (jsonStringify.goArr (x :: r)) ++ [']'])
              from rfl, goArr_eq]
            simp [List.append_assoc]
          have hJ : joinSep [','] ((x :: r).map jsonStringify) ++ ']' :: rest =
              c0 :: (cs0 ++ (u ++ ']' :: rest)) := by
            rw [List.map_cons, hju, hsx]
            simp [List.append_assoc]
          have hlt : msize.goA (x :: r) + 1 < N := by omega
          have hPE := (ih (msize.goA (x :: r) + 1) hlt).2.1 (x :: r)
            (Nat.le_refl _) f rest hga3 (List.cons_ne_nil x r) (by omega)
          rw [hin, parseVal.eq_def]
          simp only []
          rw [skipWs_cons (by decide)]
          simp only []
          rw [if_neg (by decide), if_neg (by decide), if_neg (by decide),
            if_neg (by decide), if_pos (by trivial)]
          rw [hJ, skipWs_cons hws0]
          simp only []
          rw [if_neg hnb0, ← hJ, hPE]
          rfl
      | vobj fs =>
        cases fs with
        | nil => rfl
        | cons kv r =>
          obtain ⟨k, v⟩ := kv
          have hgf : goodJson.goF ((k, v) :: r) = true := hg
          have hms1 : msize (JVal.vobj ((k, v) :: r)) =
              2 + msize.goF ((k, v) :: r) := rfl
          obtain ⟨u, hju⟩ :=
            joinSep_cons [','] (memberStr (k, v)) (r.map memberStr)
          have hin : jsonStringify (JVal.vobj ((k, v) :: r)) ++ rest =
              '{' :: (joinSep [','] (((k, v) :: r).map memberStr) ++
                '}' :: rest) := by
            rw [show jsonStringify (JVal.vobj ((k, v) :: r)) =
              '{' :: (joinSep [','] (jsonStringify.goObj ((k, v) :: r)) ++
                ['}']) from rfl, goObj_eq_member _ hgf]
            simp [List.append_assoc]
          have hJ : joinSep [','] (((k, v) :: r).map memberStr) ++
              '}' :: rest =
              '"' :: ((((k.map escChar).flatten ++ ['"']) ++
                ':' :: jsonStringify v) ++ (u ++ '}' :: rest)) := by
            rw [List.map_cons, hju, show memberStr (k, v) =
              '"' :: (((k.map escChar).flatten ++ ['"']) ++
                ':' :: jsonStringify v) from rfl]
            simp [List.append_assoc]
          have hlt : msize.goF ((k, v) :: r) + 1 < N := by omega
          have hPM := (ih (msize.goF ((k, v) :: r) + 1) hlt).2.2 ((k, v) :: r)
            (Nat.le_refl _) f rest hgf (List.cons_ne_nil (k, v) r) (by omega)
          rw [hin, parseVal.eq_def]
          simp only []
          rw [skipWs_cons (by decide)]
          simp only []
          rw [if_neg (by decide), if_neg (by decide), if_neg (by decide),
            if_neg (by decide), if_neg (by decide), if_pos (by trivial)]
          rw [hJ, skipWs_cons (by decide)]
          simp only []
          rw [if_neg (by decide), ← hJ, hPM]
          rfl
  · intro xs hN fuel rest hga hne hfuel
    cases xs with
    | nil => exact absurd rfl hne
    | cons x r =>
      have hgx : goodJson x = true ∧ goodJson.goA r = true := by
        have h2 : (goodJson x && goodJson.goA r) = true := hga
        rw [Bool.and_eq_true] at h2; exact h2
      have hvp := msize_pos x
      cases fuel with
      | zero => omega
      | succ g =>
        cases r with
        | nil =>
          have hms : msize.goA (x :: ([] : List JVal)) =
              msize x + 1 + msize.goA ([] : List JVal) := rfl
          have h0 : msize.goA ([] : List JVal) = 0 := rfl
          have hs : joinSep [','] ((x :: ([] : List JVal)).map jsonStringify) ++
              ']' :: rest = jsonStringify x ++ ']' :: rest := by
            simp [joinSep]
          have hPV := (ih (msize x) (by omega)).1 x (Nat.le_refl _) g
            (']' :: rest) hgx.1 (by omega) rfl
          rw [hs, parseElems.eq_def]
          simp only []
          rw [hPV]
          simp only []
          rw [skipWs_cons (by decide)]
          simp only []
          rw [if_neg (by decide), if_pos (by trivial)]
        | cons y r2 =>
          have hms : msize.goA (x :: y :: r2) =
              msize x + 1 + msize.goA (y :: r2) := rfl
          have hs : joinSep [','] ((x :: y :: r2).map jsonStringify) ++
              ']' :: rest = jsonStringify x ++ ',' ::
                (joinSep [','] ((y :: r2).map jsonStringify) ++
                  ']' :: rest) := by
            rw [List.map_cons, List.map_cons, joinSep]
            simp [List.append_assoc]
          have hPV := (ih (msize x) (by omega)).1 x (Nat.le_refl _) g
            (',' :: (joinSep [','] ((y :: r2).map jsonStringify) ++
              ']' :: rest)) hgx.1 (by omega) rfl
          have hPE2 := (ih (msize.goA (y :: r2) + 1) (by omega)).2.1 (y :: r2)
            (Nat.le_refl _) g rest hgx.2 (List.cons_ne_nil y r2) (by omega)
          rw [hs, parseElems.eq_def]
          simp only []
          rw [hPV]
          simp only []
          rw [skipWs_cons (by decide)]
          simp only []
          rw [if_pos (by trivial), hPE2]
  · intro fs hN fuel rest hgf hne hfuel
    cases fs with
    | nil => exact absurd rfl hne
    | cons kv r =>
      obtain ⟨k, v⟩ := kv
      have hgv : goodJson v = true ∧ goodJson.goF r = true := by
        have h2 : (goodJson v && goodJson.goF r) = true := hgf
        rw [Bool.and_eq_true] at h2; exact h2
      have hvp := msize_pos v
      cases fuel with
      | zero => omega
      | succ g =>
        cases r with
        | nil =>
          have hms : msize.goF ((k, v) :: ([] : List (Str × JVal))) =
              msize v + 1 + msize.goF ([] : List (Str × JVal)) := rfl
          have h0 : msize.goF ([] : List (Str × JVal)) = 0 := rfl
          have hs : joinSep [','] (((k, v) :: ([] : List (Str × JVal))).map
              memberStr) ++ '}' :: rest =
              '"' :: ((k.map escChar).flatten ++ '"' :: ':' ::
                (jsonStringify v ++ '}' :: rest)) := by
            simp [joinSep, memberStr, quoteStr, List.append_assoc]
          have hPV := (ih (msize v) (by omega)).1 v (Nat.le_refl _) g
            ('}' :: rest) hgv.1 (by omega) rfl
          rw [hs, parseMembers.eq_def]
          simp only []
          rw [skipWs_cons (by decide)]
          simp only []
          rw [if_pos (by trivial), parseStrBody_round]
          simp only []
          rw [skipWs_cons (by decide)]
          simp only []
          rw [if_pos (by trivial), hPV]
          simp only []
          rw [skipWs_cons (by decide)]
          simp only []
          rw [if_neg (by decide), if_pos (by trivial)]
        | cons kv2 r2 =>
          have hms : msize.goF ((k, v) :: kv2 :: r2) =
              msize v + 1 + msize.goF (kv2 :: r2) := rfl
          have hs : joinSep [','] (((k, v) :: kv2 :: r2).map memberStr) ++
              '}' :: rest =
              '"' :: ((k.map escChar).flatten ++ '"' :: ':' ::
                (jsonStringify v ++ ',' ::
                  (joinSep [','] ((kv2 :: r2).map memberStr) ++
                    '}' :: rest))) := by
            rw [List.map_cons, List.map_cons, joinSep]
            simp [memberStr, quoteStr, List.append_assoc]
          have hPV := (ih (msize v) (by omega)).1 v (Nat.le_refl _) g
            (',' :: (joinSep [','] ((kv2 :: r2).map memberStr) ++ '}' :: rest))
            hgv.1 (by omega) rfl
          have hPM2 := (ih (msize.goF (kv2 :: r2) + 1) (by omega)).2.2
            (kv2 :: r2) (Nat.le_refl _) g rest hgv.2
            (List.cons_ne_nil kv2 r2) (by omega)
          rw [hs, parseMembers.eq_def]
          simp only []
          rw [skipWs_cons (by decide)]
          simp only []
          rw [if_pos (by trivial), parseStrBody_round]
          simp only []
          rw [skipWs_cons (by decide)]
          simp only []
          rw [if_pos (by trivial), hPV]
          simp only []
          rw [skipWs_cons (by decide)]
          simp only []
          rw [if_pos (by trivial), hPM2]

/-- Serializer output is long enough for the parser fuel `2 * length + 2`:
the parse measure is at most twice the rendered length. -/
theorem stringify_msize : ∀ N : Nat,
    (∀ v : JVal, msize v ≤ N → goodJson v = true →
      msize v ≤ 2 * (jsonStringify v).length) ∧
    (∀ xs : List JVal, msize.goA xs + 1 ≤ N → goodJson.goA xs = true →
      msize.goA xs ≤ 2 * (joinSep [','] (xs.map jsonStringify)).length + 1) ∧
    (∀ fs : List (Str × JVal), msize.goF fs + 1 ≤ N → goodJson.goF fs = true →
      msize.goF fs ≤ 2 * (joinSep [','] (fs.map memberStr)).length + 1) := by
  intro N
  induction N using Nat.strong_induction_on with
  | h N ih =>
  refine ⟨?_, ?_, ?_⟩
  · intro v hN hg
    cases v with
    | vnull => decide
    | vundef => simp [goodJson] at hg
    | vdate iso => simp [goodJson] at hg
    | vset xs => simp [goodJson] at hg
    | vbool b => cases b <;> decide
    | vnum q =>
      have hg2 : (decide (q.den = 1) && decide (q.num.natAbs < 10 ^ 21)) =
          true := hg
      rw [Bool.and_eq_true, decide_eq_true_eq, decide_eq_true_eq] at hg2
      obtain ⟨c, cs, hic, -⟩ := intToDec_headInfo q.num
      have hlen : (jsonStringify (JVal.vnum q)).length = cs.length + 1 := by
        rw [show jsonStringify (JVal.vnum q) = numToString q from rfl]
        rw [numToString, if_pos hg2.1, hic]
        simp
      have hm : msize (JVal.vnum q) = 1 := rfl
      omega
    | vstr s =>
      have hlen : (jsonStringify (JVal.vstr s)).length =
          (s.map escChar).flatten.length + 2 := by
        rw [show jsonStringify (JVal.vstr s) = quoteStr s from rfl, quoteStr]
        simp
      have hm : msize (JVal.vstr s) = 1 := rfl
      omega
    | varr xs =>
      have hga : goodJson.goA xs = true := hg
      have hm : msize (JVal.varr xs) = 2 + msize.goA xs := rfl
      have hlen : (jsonStringify (JVal.varr xs)).length =
          (joinSep [','] (xs.map jsonStringify)).length + 2 := by
        rw [show jsonStringify (JVal.varr xs) =
          '[' :: (joinSep [','] (jsonStringify.goArr xs) ++ [']']) from rfl,
          goArr_eq]
        simp
      have hA := (ih (msize.goA xs + 1) (by omega)).2.1 xs (Nat.le_refl _) hga
      omega
    | vobj fs =>
      have hgf : goodJson.goF fs = true := hg
      have hm : msize (JVal.vobj fs) = 2 + msize.goF fs := rfl
      have hlen : (jsonStringify (JVal.vobj fs)).length =
          (joinSep [','] (fs.map memberStr)).length + 2 := by
        rw [show jsonStringify (JVal.vobj fs) =
          '{' :: (joinSep [','] (jsonStringify.goObj fs) ++ ['}']) from rfl,
          goObj_eq_member _ hgf]
        simp
      have hF := (ih (msize.goF fs + 1) (by omega)).2.2 fs (Nat.le_refl _) hgf
      omega
  · intro xs hN hga
    cases xs with
    | nil =>
      have h0 : msize.goA ([] : List JVal) = 0 := rfl
      omega
    | cons x r =>
      have hgx : goodJson x = true ∧ goodJson.goA r = true := by
        have h2 : (goodJson x && goodJson.goA r) = true := hga
        rw [Bool.and_eq_true] at h2; exact h2
      have hvp := msize_pos x
      have hV := (ih (msize x) (by
        have hms : msize.goA (x :: r) = msize x + 1 + msize.goA r := rfl
        omega)).1 x (Nat.le_refl _) hgx.1
      cases r with
      | nil =>
        have hms : msize.goA (x :: ([] : List JVal)) =
            msize x + 1 + msize.goA ([] : List JVal) := rfl
        have h0 : msize.goA ([] : List JVal) = 0 := rfl
        have hj : joinSep [','] ((x :: ([] : List JVal)).map jsonStringify) =
            jsonStringify x := by simp [joinSep]
        rw [hj]
        omega
      | cons y r2 =>
        have hms : msize.goA (x :: y :: r2) =
            msize x + 1 + msize.goA (y :: r2) := rfl
        have hj : (joinSep [','] ((x :: y :: r2).map jsonStringify)).length =
            (jsonStringify x).length + 1 +
              (joinSep [','] ((y :: r2).map jsonStringify)).length := by
          rw [List.map_cons, List.map_cons, joinSep]
          simp
          omega
        have hA := (ih (msize.goA (y :: r2) + 1) (by omega)).2.1 (y :: r2)
          (Nat.le_refl _) hgx.2
        omega
  · intro fs hN hgf
    cases fs with
    | nil =>
      have h0 : msize.goF ([] : List (Str × JVal)) = 0 := rfl
      omega
    | cons kv r =>
      obtain ⟨k, v⟩ := kv
      have hgv : goodJson v = true ∧ goodJson.goF r = true := by
        have h2 : (goodJson v && goodJson.goF r) = true := hgf
        rw [Bool.and_eq_true] at h2; exact h2
      have hvp := msize_pos v
      have hV := (ih (msize v) (by
        have hms : msize.goF ((k, v) :: r) = msize v + 1 + msize.goF r := rfl
        omega)).1 v (Nat.le_refl _) hgv.1
      have hml : (memberStr (k, v)).length =
          (quoteStr k).length + 1 + (jsonStringify v).length := by
        simp [memberStr]
        omega
      cases r with
      | nil =>
        have hms : msize.goF ((k, v) :: ([] : List (Str × JVal))) =
            msize v + 1 + msize.goF ([] : List (Str × JVal)) := rfl
        have h0 : msize.goF ([] : List (Str × JVal)) = 0 := rfl
        have hj : joinSep [','] (((k, v) :: ([] : List (Str × JVal))).map
            memberStr) = memberStr (k, v) := by simp [joinSep]
        rw [hj]
        omega
      | cons kv2 r2 =>
        have hms : msize.goF ((k, v) :: kv2 :: r2) =
            msize v + 1 + msize.goF (kv2 :: r2) := rfl
        have hj : (joinSep [','] (((k, v) :: kv2 :: r2).map memberStr)).length =
            (memberStr (k, v)).length + 1 +
              (joinSep [','] ((kv2 :: r2).map memberStr)).length := by
          rw [List.map_cons, List.map_cons, joinSep]
          simp
          omega
        have hF := (ih (msize.goF (kv2 :: r2) + 1) (by omega)).2.2 (kv2 :: r2)
          (Nat.le_refl _) hgv.2
        omega

/-- `JSON.parse` inverts `JSON.stringify` on every JSON-exact value. -/
theorem jsonParse_roundtrip (v : JVal) (h : goodJson v = true) :
    jsonParse (jsonStringify v) = some v := by
  have hsz := (stringify_msize (msize v)).1 v (Nat.le_refl _) h
  have hm := (roundtrip_master (msize v)).1 v (Nat.le_refl _)
    (2 * (jsonStringify v).length + 2) [] h (by omega) rfl
  rw [List.append_nil] at hm
  simp only [jsonParse]
  rw [hm]
  rfl

/-- C9: round-trip through bind and shape.  For every JSON-exact plain
object, the binder (`#reqInput`) serializes it with `JSON.stringify` and
binds the text as NVarChar(max); shaping a result cell holding exactly that
text (`#get.parsedJson` / `#jsonParseData`) recovers the same structure.
Booleans do not bind through a native boolean engine type: the binder emits
their literal text `true`/`false` as NVarChar(10), and shaping that literal
text recovers the boolean. -/
theorem C9_bind_shape_roundtrip :
    (∀ k fs, goodJson (JVal.vobj fs) = true →
      reqInput k (JVal.vobj fs) =
        (SqlTy.nvarcharMax, JVal.vstr (jsonStringify (JVal.vobj fs))) ∧
      shapeCell (JVal.vstr (jsonStringify (JVal.vobj fs))) = JVal.vobj fs) ∧
    (∀ k b, ¬ k = "_page".data →
      reqInput k (JVal.vbool b) = (SqlTy.nvarchar 10,
        JVal.vstr (if b then "true".data else "false".data)) ∧
      shapeCell (JVal.vstr (if b then "true".data else "false".data)) =
        JVal.vbool b) := by
  constructor
  · intro k fs hg
    constructor
    · simp [reqInput, isNullish, jsTruthy, jsToStringIsZero, Bool.and_false]
    · have hnum : isNumericStr (jsonStringify (JVal.vobj fs)) = false := rfl
      simp only [shapeCell, hnum, Bool.false_eq_true, if_false,
        jsonParse_roundtrip _ hg]
  · intro k b hk
    cases b with
    | true =>
      refine ⟨?_, rfl⟩
      simp [reqInput, isNullish, jsTruthy, jsToStringIsZero, Bool.and_false]
    | false =>
      refine ⟨?_, rfl⟩
      simp [reqInput, isNullish, jsTruthy, jsToStringIsZero, hk]

/-- The round-trip evaluated end to end at the spec's own example `{a:1}`
and at `true`. -/
theorem C9_bind_shape_roundtrip_witness :
    reqInput "x".data (JVal.vobj [("a".data, JVal.vnum 1)]) =
      (SqlTy.nvarcharMax,
        JVal.vstr (jsonStringify (JVal.vobj [("a".data, JVal.vnum 1)]))) ∧
    shapeCell (JVal.vstr (jsonStringify
        (JVal.vobj [("a".data, JVal.vnum 1)]))) =
      JVal.vobj [("a".data, JVal.vnum 1)] ∧
    reqInput "x".data (JVal.vbool true) =
      (SqlTy.nvarchar 10, JVal.vstr "true".data) ∧
    shapeCell (JVal.vstr "true".data) = JVal.vbool true := by
  obtain ⟨h1, h2⟩ := C9_bind_shape_roundtrip.1 "x".data
    [("a".data, JVal.vnum 1)] (by decide)
  obtain ⟨h3, h4⟩ := C9_bind_shape_roundtrip.2 "x".data true (by decide)
  exact ⟨h1, h2, h3, h4⟩

/-! ## Claim C2: the paging-rejection retry of `#exec`
(src/unnamed/part_002 lines 183-277) -/

/-- The `result` option of `ExecOptions`:
`"rows" | "first" | "sets" | "meta"`. -/
inductive RMode
  | rows
  | first
  | sets
  | meta
deriving DecidableEq

/-- The `applyPaging` option: `"auto" | "never"`. -/
inductive APaging
  | auto
  | never
deriving DecidableEq

/-- A partial `ExecOptions` object; absent fields are `none`. -/
structure ExecOpts where
  result : Option RMode
  parse : Option Bool
  rowcountOne : Option Bool
  applyPaging : Option APaging
  limit : Option Nat
deriving DecidableEq

/-- The `optionsOrBoolean` argument of `exec`: omitted, the legacy
boolean, or an options object. -/
inductive ExecArg
  | noArg
  | boolArg (b : Bool)
  | optsArg (o : ExecOpts)
deriving DecidableEq

/-- The fully defaulted `Required<ExecOptions>` record. -/
structure ExecOptsR where
  result : RMode
  parse : Bool
  rowcountOne : Bool
  applyPaging : APaging
  limit : Nat
deriving DecidableEq

/-- `#normalizeExecOptions` (part_002 lines 853-867): the legacy boolean
becomes `result: "first"` or `"rows"`; option fields default to
`result: "rows"`, `parse: true` (`base.parse !== false`),
`rowcountOne: false` (`=== true`), `applyPaging: "auto"`, `limit: 0`. -/
def normalizeExecOptions : ExecArg → ExecOptsR
  | .boolArg b => ⟨if b then .first else .rows, true, false, .auto, 0⟩
  | .noArg => ⟨.rows, true, false, .auto, 0⟩
  | .optsArg o =>
    ⟨o.result.getD .rows, o.parse.getD true, o.rowcountOne.getD false,
      o.applyPaging.getD .auto, o.limit.getD 0⟩

/-- Set or insert one key of a parameter bag (JS property assignment). -/
def bagSet : Bag → Str → JVal → Bag
  | [], k, v => [(k, v)]
  | (k2, v2) :: t, k, v =>
    if k2 = k then (k2, v) :: t else (k2, v2) :: bagSet t k v

/-- Truthiness of one bag entry (`params.limit` as a JS condition). -/
def bagTruthy (params : Bag) (k : Str) : Bool :=
  match bagFind params k with
  | some v => jsTruthy v
  | none => false

/-- `if (params?.limit && !params.page) params.page = 0`
(part_002 line 198). -/
def pageDefault : Option Bag → Option Bag
  | none => none
  | some b =>
    if bagTruthy b "limit".data && !(bagTruthy b "page".data) then
      some (bagSet b "page".data (JVal.vnum 0))
    else some b

/-- `typeof params?.limit === "number"` over the optional bag. -/
def limitIsNumberO : Option Bag → Bool
  | none => false
  | some b => limitIsNumber b

/-- `#get.query` of part_002 (lines 526-565) under the default
configuration: `config.useOpenJson` is unset, so the OPENJSON rewriting
block is skipped, leaving only the pagination injection with its four
guards — numeric limit, no `fetch next` substring, no `\btop\b` word, an
`order by` substring (all case-insensitive). -/
def getQueryV2 (query : Str) (params : Option Bag)
    (suppressPaging : Bool) : Str :=
  if !suppressPaging && limitIsNumberO params &&
      !(strContains (toLower query) "fetch next".data) &&
      !(hasWordCIAux "top".data false query) &&
      strContains (toLower query) "order by".data then
    query ++ pagingClause
  else query

/-- `\bFETCH\s+NEXT\b` matched at the current position (the leading
boundary is the caller's scan flag). -/
def fetchNextHere (s : Str) : Bool :=
  match stripCI s "fetch".data with
  | none => false
  | some r1 =>
    match r1 with
    | [] => false
    | c :: t =>
      if isWsChar c then
        match stripCI (dropWs t) "next".data with
        | some r2 => noWordAhead r2
        | none => false
      else false

/-- Scan for `/\bFETCH\s+NEXT\b/i`, tracking whether the previous
character was a word character. -/
def hasFetchNextAux : Bool → Str → Bool
  | _, [] => false
  | prevW, c :: t =>
    (!prevW && fetchNextHere (c :: t)) || hasFetchNextAux (isWordChar c) t

/-- `hadFetchNext` of the catch block (part_002 lines 254-256). -/
def hadFetchNext (q : Str) : Bool := hasFetchNextAux false q

/-- What the driver reports on a failed query. -/
structure EngErr where
  number : Int
  message : Str

/-- One result row: an ordered column list. -/
abbrev Row := List (Str × JVal)

/-- A driver result: the `recordsets` array. -/
abbrev EngResult := List (List Row)

/-- The thrown `DBError`, in the fields the claim observes
(`parseMSSQLError` copies `err.number`, `err.message` and sets
`qry` to the built query). -/
structure DbErr where
  number : Int
  message : Str
  qry : Str

/-- What `#exec` returns in each result mode. -/
inductive ExecOut
  | meta (recordsets : List (List Row)) (recordset : List Row)
  | sets (s : List (List Row))
  | firstRow (r : Option Row)
  | rows (rs : List Row)

/-- `#coerceRow` (part_002 lines 869-890): per-cell `shapeCell`. -/
def coerceRow (r : Row) : Row := r.map (fun kv => (kv.1, shapeCell kv.2))

/-- `#parseRows` (part_002 lines 892-898). -/
def parseRows (rows : List Row) : List Row := rows.map coerceRow

/-- `#parseRecordsets` (part_002 lines 900-903). -/
def parseRecordsets (sets : List (List Row)) : List (List Row) :=
  sets.map parseRows

/-- `#exec` (part_002 lines 183-277) over an abstract driver `engine`
mapping the executed text to a result or an error.  The fuel only bounds
the `retryCount`-guarded recursion (at most 6 nested calls in the source,
so any fuel above 6 is exact); parameter binding (`#get.params`) is not
modeled because the abstract engine observes only the executed text.  The
paging-rejection retry of lines 264-271 appears as the `_retried` binding:
the source awaits that call and drops its result, reaching `throw error`
regardless. -/
def execModel (engine : Str → Except EngErr EngResult) (tranHeader : Str) :
    Nat → Str → Option Bag → ExecArg → Nat → Except DbErr ExecOut
  | 0, _, _, _, _ => .error ⟨0, [], []⟩
  | f + 1, originalQuery, params0, arg, retryCount =>
    let opts := normalizeExecOptions arg
    let params := pageDefault params0
    let query := getQueryV2 originalQuery params
      (decide (opts.result = RMode.sets) ||
        decide (opts.applyPaging = APaging.never))
    let applyRowcount := opts.rowcountOne ||
      decide (opts.result = RMode.first) ||
      decide (arg = ExecArg.boolArg true)
    let sqlText := (tranHeader ++
        (if applyRowcount then "\nSET ROWCOUNT 1;".data else [])) ++
      "\n".data ++ query ++ "\n".data ++
      (if applyRowcount then "SET ROWCOUNT 0;".data else [])
    match engine sqlText with
    | .ok result =>
      if opts.result = RMode.meta then
        if !opts.parse then .ok (ExecOut.meta result (result.headD []))
        else
          let parsedSets := parseRecordsets result
          .ok (ExecOut.meta parsedSets (parsedSets.headD []))
      else if opts.result = RMode.sets then
        .ok (ExecOut.sets
          (if opts.parse then parseRecordsets result else result))
      else
        let rows := result.headD []
        let parsedRows := if opts.parse then parseRows rows else rows
        if opts.result = RMode.first ∨ opts.limit = 1 then
          .ok (ExecOut.firstRow parsedRows.head?)
        else .ok (ExecOut.rows parsedRows)
    | .error err =>
      if (strContains err.message "deadlock".data ||
          strContains err.message "unknown reason".data) &&
          decide (retryCount < 5) then
        execModel engine tranHeader f query params arg (retryCount + 1)
      else
        let hadPaging := hadFetchNext query
        let isNextUsage := decide (err.number = 153) ||
          strContains err.message "usage of the option NEXT".data
        let _retried :=
          if (hadPaging || isNextUsage) && retryCount < 1 then
            some (execModel engine tranHeader f originalQuery params
              (ExecArg.optsArg ⟨some opts.result, some opts.parse,
                some true, some APaging.never, some opts.limit⟩)
              (retryCount + 1))
          else none
        .error ⟨err.number, err.message, query⟩

/-- The scenario statement: already ordered, no paging keyword of its
own. -/
def C2qry : Str := "select a from t order by a".data

/-- The engine message for error 153. -/
def C2msg : Str :=
  "Invalid usage of the option NEXT in the FETCH statement.".data

/-- A transaction header. -/
def C2th : Str := "set nocount on;".data

/-- A driver that rejects any text carrying the injected paging clause
with error 153 and returns one row otherwise. -/
def c2Engine (s : Str) : Except EngErr EngResult :=
  if strContains (toLower s) "fetch next".data then .error ⟨153, C2msg⟩
  else .ok [[[("a".data, JVal.vnum 1)]]]


/-- C2: the claim says that when the engine rejects the injected
row-limiting clause (error 153 / NEXT-option message / FETCH NEXT present
in the executed text), `#exec` retries once with the original text, paging
suppressed and a single-row cap, and returns that retry's result.  The
source does perform exactly that retry (lines 264-271) but discards its
value and falls through to `throw error`.  First conjunct: the outer call
under a 153-rejecting engine ends in the thrown error, not a result.
Second conjunct: the very retry call the source awaits (original text,
`applyPaging: "never"`, `rowcountOne: true`, retryCount 1) succeeds with
the row data that should have been returned.  Third conjunct: the rewritten
text indeed carried the injected FETCH NEXT clause, so the retry branch was
taken. -/
theorem C2_paging_retry_result_dropped_bug :
    execModel c2Engine C2th 10 C2qry (some [("limit".data, JVal.vnum 10)])
        ExecArg.noArg 0 =
      .error ⟨153, C2msg, C2qry ++ pagingClause⟩ ∧
    execModel c2Engine C2th 9 C2qry
        (some [("limit".data, JVal.vnum 10), ("page".data, JVal.vnum 0)])
        (ExecArg.optsArg ⟨some RMode.rows, some true, some true,
          some APaging.never, some 0⟩) 1 =
      .ok (ExecOut.rows [[("a".data, JVal.vnum 1)]]) ∧
    hadFetchNext (getQueryV2 C2qry
      (some [("limit".data, JVal.vnum 10), ("page".data, JVal.vnum 0)])
      false) = true := by
  refine ⟨rfl, rfl, rfl⟩

end DbSpec
